import Mathlib

/-!
# Verification of the event bus, lifecycle and render core

Shallow embedding of the component runtime found in
`src/core/instance/{lifecycle,render,inject}.js` and the events module
(`initEvents` / `eventsMixin`), together with proofs of the spec's claims
about it.

Conventions:
* JS function identity is modelled by `Nat` ids; each distinct closure
  created at runtime gets a fresh id.
* The single-threaded heap is threaded explicitly as a state record.
* Recursion through `$emit` (a handler may synchronously re-emit) is
  bounded by an explicit fuel parameter; fuel is consumed only when an
  emit dispatch starts, mirroring the call stack depth of the source.
-/

namespace VueCore

/-! ## Event bus (`eventsMixin` in the events module)

`vm._events` maps an event name to an ordered array of callbacks.
A callback is either a plain user function, the wrapper closure `on`
created by `$once` (which carries `on.fn = fn`, the wrapped original),
or the `onceHandler` closure created by `createOnceHandler` for
parent-attached listeners (which carries no `.fn` property).
Wrapper closures receive a fresh id `wid` so that distinct closures are
distinct values, as in JS. -/

inductive Cb where
  | plain (fid : Nat)
  | onceW (wid : Nat) (event : String) (fid : Nat)
  | parentOnceW (wid : Nat) (event : String) (fid : Nat)
  deriving DecidableEq, Repr

/-- Effects a user handler body may perform when invoked.  Arguments to a
nested `$emit` are modelled as a list of naturals. -/
inductive Eff where
  | emitE (name : String) (args : List Nat)
  | onE (name : String) (fid : Nat)
  | offE (name : String) (fid : Nat)
  deriving DecidableEq, Repr

/-- Behaviour of one user function: the effects its body performs, whether
it finally throws, and whether its return value is `null` (relevant only
to `createOnceHandler`, which tests `res !== null`). -/
structure FnBody where
  effs : List Eff
  throws : Bool
  retNull : Bool
  deriving DecidableEq, Repr

/-- The event-relevant state of one instance: the `_events` map (an assoc
list, key order irrelevant, callback order significant), the `_hasHookEvent`
fast-path flag, a counter generating fresh wrapper ids, a log of every
user-function invocation `(fid, args)` in order, and the number of errors
the reporting sink received from `invokeWithErrorHandling`. -/
structure EvState where
  events : List (String × List Cb)
  hasHookEvent : Bool
  nextWid : Nat
  log : List (Nat × List Nat)
  reported : Nat
  deriving DecidableEq, Repr

def emptyEvState : EvState :=
  { events := [], hasHookEvent := false, nextWid := 0, log := [], reported := 0 }

/-- `vm._events[event]`, with the JS falsy cases (`undefined` after
`initEvents`, `null` after `$off(event)`) collapsed to a missing key. -/
def lookupEv (st : EvState) (name : String) : List Cb :=
  (st.events.lookup name).getD []

/-- Update the entry for `name` (inserting it if absent), preserving the
positions of all other keys, as JS property assignment does. -/
def setEv (name : String) (cbs : List Cb) : List (String × List Cb) → List (String × List Cb)
  | [] => [(name, cbs)]
  | (k, v) :: rest =>
    if k = name then (k, cbs) :: rest else (k, v) :: setEv name cbs rest

/-- `$on(event, fn)` for a single event name: push `cb` onto the array for
`event` (creating it when absent) and set `_hasHookEvent` when the name
matches `/^hook:/`. -/
def onCb (name : String) (cb : Cb) (st : EvState) : EvState :=
  { st with
    events := setEv name (lookupEv st name ++ [cb]) st.events
    hasHookEvent := st.hasHookEvent || name.startsWith "hook:" }

/-- `$once(event, fn)`: create the wrapper closure `on` (with `on.fn = fn`)
and register it via `$on`.  The wrapper gets the next fresh closure id. -/
def onceReg (name : String) (fid : Nat) (st : EvState) : EvState :=
  onCb name (Cb.onceW st.nextWid name fid) { st with nextWid := st.nextWid + 1 }

/-- The match test of the `$off(event, fn)` loop:
`cb === fn || cb.fn === fn`.  Only the `$once` wrapper carries a `.fn`
property (the wrapped original); `onceHandler` from `createOnceHandler`
does not. -/
def cbMatch (cb fn : Cb) : Bool :=
  cb == fn ||
    match cb, fn with
    | Cb.onceW _ _ fid, Cb.plain fid2 => fid == fid2
    | _, _ => false

/-- The `while (i--) { ... splice(i, 1); break }` loop of `$off(event, fn)`:
scan from the END of the array, remove the first match found there (i.e. the
last-registered match), stop.  `none` when no callback matches. -/
def removeLastMatch (fn : Cb) : List Cb → Option (List Cb)
  | [] => none
  | cb :: rest =>
    match removeLastMatch fn rest with
    | some rest' => some (cb :: rest')
    | none => if cbMatch cb fn then some rest else none

/-- `$off(event, fn)` with both arguments given: no-op when the event has no
callback array, otherwise remove the last-registered match (if any). -/
def offEventFn (name : String) (fn : Cb) (st : EvState) : EvState :=
  match st.events.lookup name with
  | none => st
  | some cbs =>
    match removeLastMatch fn cbs with
    | none => st
    | some cbs' => { st with events := setEv name cbs' st.events }

section Interp

-- `env` is the fixed registry of user-function behaviours (function code
-- never changes at runtime).
variable (env : Nat → FnBody)

/-- Run the effects of a handler body in order; nested emits dispatch
through `emitF`, the one-level-less-fuel interpreter. -/
def runEffsWith (emitF : String → List Nat → EvState → EvState) :
    List Eff → EvState → EvState
  | [], st => st
  | Eff.emitE name args :: rest, st => runEffsWith emitF rest (emitF name args st)
  | Eff.onE name fid :: rest, st => runEffsWith emitF rest (onCb name (Cb.plain fid) st)
  | Eff.offE name fid :: rest, st => runEffsWith emitF rest (offEventFn name (Cb.plain fid) st)

/-- Run one user function `fid`: record the invocation, run its body's
effects, and report whether it threw (`none`) or returned
null / non-null (`some retNull`). -/
def runFnWith (emitF : String → List Nat → EvState → EvState)
    (fid : Nat) (args : List Nat) (st : EvState) : EvState × Option Bool :=
  let body := env fid
  let st1 := { st with log := st.log ++ [(fid, args)] }
  let st2 := runEffsWith emitF body.effs st1
  (st2, if body.throws then none else some body.retNull)

/-- Invoke one callback, returning the new state and whether the call threw
(to be caught by `invokeWithErrorHandling` at the `$emit` loop).
* a plain callback just runs the user function;
* the `$once` wrapper `on` first does `vm.$off(event, on)` and only then
  calls `fn` — unsubscribe-before-invoke;
* the `createOnceHandler` wrapper calls `fn` FIRST and unsubscribes itself
  only afterwards, and only when the result is not `null` (an exception in
  `fn` also skips the unsubscribe). -/
def invokeCbWith (emitF : String → List Nat → EvState → EvState)
    (args : List Nat) : Cb → EvState → EvState × Bool
  | Cb.plain fid, st =>
    let (st', r) := runFnWith env emitF fid args st
    (st', r.isNone)
  | Cb.onceW wid ev fid, st =>
    let st1 := offEventFn ev (Cb.onceW wid ev fid) st
    let (st', r) := runFnWith env emitF fid args st1
    (st', r.isNone)
  | Cb.parentOnceW wid ev fid, st =>
    let (st', r) := runFnWith env emitF fid args st
    match r with
    | some false => (offEventFn ev (Cb.parentOnceW wid ev fid) st', false)
    | some true => (st', false)
    | none => (st', true)

/-- The `$emit` iteration over the snapshot: each callback is run through
`invokeWithErrorHandling`, which catches a throw and routes it to the
reporting sink, so the remaining callbacks still run. -/
def invokeListWith (emitF : String → List Nat → EvState → EvState)
    (args : List Nat) : List Cb → EvState → EvState
  | [], st => st
  | cb :: rest, st =>
    let p := invokeCbWith env emitF args cb st
    let st2 := if p.2 then { p.1 with reported := p.1.reported + 1 } else p.1
    invokeListWith emitF args rest st2

/-- `$emit(event, ...args)`: take the callback array registered at the
moment of the call (`toArray` makes it a snapshot; for length ≤ 1 the live
array behaves identically since the loop bound and the sole element are
read before any callback runs) and invoke each element in order.  `fuel`
bounds the synchronous re-emit depth. -/
def emit : Nat → String → List Nat → EvState → EvState
  | 0, _, _, st => st
  | fuel + 1, name, args, st =>
    invokeListWith env (emit fuel) args (lookupEv st name) st

end Interp

/-- A sequence of top-level `$emit` calls for one event, each with its own
recursion budget and arguments. -/
def emitSeq (env : Nat → FnBody) (name : String) :
    List (Nat × List Nat) → EvState → EvState
  | [], st => st
  | (fuel, args) :: rest, st => emitSeq env name rest (emit env fuel name args st)

/-- Number of recorded invocations of user function `fid`. -/
def countFn (fid : Nat) (st : EvState) : Nat :=
  (st.log.filter (fun p => p.1 == fid)).length

/-- The user function a callback ultimately invokes. -/
def wrappedFid : Cb → Nat
  | Cb.plain fid => fid
  | Cb.onceW _ _ fid => fid
  | Cb.parentOnceW _ _ fid => fid

/-! ### Basic lemmas about the `_events` map -/

theorem lookup_setEv_self (name : String) (cbs : List Cb) :
    ∀ l : List (String × List Cb), (setEv name cbs l).lookup name = some cbs := by
  intro l
  induction l with
  | nil => simp [setEv, List.lookup]
  | cons p rest ih =>
    obtain ⟨k, v⟩ := p
    by_cases hk : k = name
    · subst hk; simp [setEv, List.lookup]
    · simp only [setEv, if_neg hk, List.lookup]
      have : (name == k) = false := by
        simp [beq_eq_false_iff_ne]; exact fun h => hk h.symm
      simp [this, ih]

theorem lookup_setEv_other (name k : String) (cbs : List Cb) (hk : k ≠ name) :
    ∀ l : List (String × List Cb), (setEv name cbs l).lookup k = l.lookup k := by
  intro l
  induction l with
  | nil =>
    have : (k == name) = false := by simp [beq_eq_false_iff_ne]; exact hk
    simp [setEv, List.lookup, this]
  | cons p rest ih =>
    obtain ⟨k', v⟩ := p
    by_cases hk' : k' = name
    · subst hk'
      have : (k == k') = false := by simp [beq_eq_false_iff_ne]; exact hk
      simp [setEv, List.lookup, this]
    · simp only [setEv, if_neg hk', List.lookup]
      by_cases he : k = k'
      · subst he; simp
      · have : (k == k') = false := by simp [beq_eq_false_iff_ne]; exact he
        simp [this, ih]

/-- All callback arrays of the state are empty (nobody is subscribed). -/
def emptyEvents (st : EvState) : Prop :=
  ∀ p ∈ st.events, p.2 = ([] : List Cb)

theorem lookup_mem_pairs {name : String} {v : List Cb} :
    ∀ {l : List (String × List Cb)}, l.lookup name = some v → (name, v) ∈ l := by
  intro l
  induction l with
  | nil => intro hlk; simp [List.lookup] at hlk
  | cons p rest ih =>
    obtain ⟨k, w⟩ := p
    intro hlk
    simp only [List.lookup] at hlk
    by_cases he : name = k
    · subst he; simp at hlk; simp [hlk]
    · have hne : (name == k) = false := beq_eq_false_iff_ne.mpr he
      rw [hne] at hlk
      exact List.mem_cons_of_mem _ (ih hlk)

theorem lookupEv_of_emptyEvents {st : EvState} (h : emptyEvents st) (name : String) :
    lookupEv st name = [] := by
  unfold lookupEv
  cases hlk : st.events.lookup name with
  | none => rfl
  | some l =>
    have := h _ (lookup_mem_pairs hlk)
    simp only [Option.getD_some]
    exact this

/-- With nobody subscribed anywhere, `$emit` is a complete no-op
(whatever the fuel). -/
theorem emit_of_emptyEvents (env : Nat → FnBody) {st : EvState} (h : emptyEvents st)
    (fuel : Nat) (name : String) (args : List Nat) :
    emit env fuel name args st = st := by
  cases fuel with
  | zero => rfl
  | succ f =>
    show invokeListWith env (emit env f) args (lookupEv st name) st = st
    rw [lookupEv_of_emptyEvents h]
    rfl

theorem runEffsWith_of_emits_empty (env : Nat → FnBody) (f : Nat) {st : EvState}
    (h : emptyEvents st) :
    ∀ effs : List Eff, (∀ eff ∈ effs, ∃ n a, eff = Eff.emitE n a) →
      runEffsWith (emit env f) effs st = st := by
  intro effs
  induction effs with
  | nil => intro _; rfl
  | cons eff rest ih =>
    intro hall
    obtain ⟨n, a, he⟩ := hall eff (List.mem_cons_self _ _)
    subst he
    show runEffsWith (emit env f) rest (emit env f n a st) = st
    rw [emit_of_emptyEvents env h]
    exact ih (fun e he' => hall e (List.mem_cons_of_mem _ he'))

theorem emitSeq_of_emptyEvents (env : Nat → FnBody) (name : String) {st : EvState}
    (h : emptyEvents st) (emits : List (Nat × List Nat)) :
    emitSeq env name emits st = st := by
  induction emits with
  | nil => rfl
  | cons p rest ih =>
    show emitSeq env name rest (emit env p.1 name p.2 st) = st
    rw [emit_of_emptyEvents env h]
    exact ih

theorem lookup_cons_self' {β : Type} (k : String) (v : β) (rest : List (String × β)) :
    List.lookup k ((k, v) :: rest) = some v := by simp [List.lookup]

theorem lookup_cons_ne'' {β : Type} (k k' : String) (v : β) (rest : List (String × β))
    (h : k ≠ k') : List.lookup k ((k', v) :: rest) = List.lookup k rest := by
  simp [List.lookup, beq_eq_false_iff_ne.mpr h]

/-- Characterisation of the first `$emit(e, args)` after `$once(e, fn)` on a
fresh bus: the wrapper removed itself, so the callback array is empty
afterwards, and `fn` ran exactly once, with the emit's arguments — even
when its body synchronously re-emits `e`.  (State fields in constructor
order: events, hasHookEvent, nextWid, log, reported.) -/
theorem emit_after_once (env : Nat → FnBody) (e : String) (fid : Nat)
    (args : List Nat) (f : Nat)
    (hbody : ∀ eff ∈ (env fid).effs, ∃ n a, eff = Eff.emitE n a) :
    (emit env (f + 1) e args (onceReg e fid emptyEvState)).events = [(e, [])] ∧
    (emit env (f + 1) e args (onceReg e fid emptyEvState)).log = [(fid, args)] := by
  have hst0 : onceReg e fid emptyEvState =
      (⟨[(e, [Cb.onceW 0 e fid])], e.startsWith "hook:", 1, [], 0⟩ : EvState) := by
    simp [onceReg, onCb, emptyEvState, lookupEv, setEv]
  have hempty : emptyEvents (⟨[(e, [])], e.startsWith "hook:", 1, [(fid, args)], 0⟩ : EvState) := by
    intro p hp
    simp at hp
    simp [hp]
  have hrun : runFnWith env (emit env f) fid args
      (⟨[(e, [])], e.startsWith "hook:", 1, [], 0⟩ : EvState) =
      ((⟨[(e, [])], e.startsWith "hook:", 1, [(fid, args)], 0⟩ : EvState),
        if (env fid).throws then none else some (env fid).retNull) := by
    show (runEffsWith (emit env f) (env fid).effs
      (⟨[(e, [])], e.startsWith "hook:", 1, [(fid, args)], 0⟩ : EvState), _) = _
    rw [runEffsWith_of_emits_empty env f hempty _ hbody]
  have hoff : offEventFn e (Cb.onceW 0 e fid)
      (⟨[(e, [Cb.onceW 0 e fid])], e.startsWith "hook:", 1, [], 0⟩ : EvState) =
      (⟨[(e, [])], e.startsWith "hook:", 1, [], 0⟩ : EvState) := by
    simp [offEventFn, lookup_cons_self', removeLastMatch, cbMatch, setEv]
  have hcb : invokeCbWith env (emit env f) args (Cb.onceW 0 e fid)
      (⟨[(e, [Cb.onceW 0 e fid])], e.startsWith "hook:", 1, [], 0⟩ : EvState) =
      ((⟨[(e, [])], e.startsWith "hook:", 1, [(fid, args)], 0⟩ : EvState), (env fid).throws) := by
    simp only [invokeCbWith, hoff, hrun]
    cases h : (env fid).throws <;> simp [h]
  have hlk : lookupEv (⟨[(e, [Cb.onceW 0 e fid])], e.startsWith "hook:", 1, [], 0⟩ : EvState) e =
      [Cb.onceW 0 e fid] := by
    simp [lookupEv, lookup_cons_self']
  rw [hst0]
  show (invokeListWith env (emit env f) args (lookupEv _ e) _).events = _ ∧
       (invokeListWith env (emit env f) args (lookupEv _ e) _).log = _
  rw [hlk]
  simp only [invokeListWith, hcb]
  cases h : (env fid).throws <;> simp

/-- C2: after `$once(event, fn)`, any sequence of `$emit(event)` calls
invokes `fn` exactly once, even when `fn`'s body synchronously re-emits
the same event, because the wrapper unsubscribes itself before invoking
`fn`.  Each top-level emit carries its own recursion budget (≥ 1, i.e. the
dispatch actually starts) and arguments. -/
theorem once_handler_invoked_exactly_once (env : Nat → FnBody) (e : String) (fid : Nat)
    (emits : List (Nat × List Nat))
    (hbody : ∀ eff ∈ (env fid).effs, ∃ n a, eff = Eff.emitE n a)
    (hne : emits ≠ [])
    (hfuel : ∀ p ∈ emits, 1 ≤ p.1) :
    countFn fid (emitSeq env e emits (onceReg e fid emptyEvState)) = 1 := by
  cases emits with
  | nil => exact absurd rfl hne
  | cons p rest =>
    obtain ⟨fuel, args⟩ := p
    have h1 : 1 ≤ fuel := hfuel _ (List.mem_cons_self _ _)
    obtain ⟨f, rfl⟩ : ∃ f, fuel = f + 1 := ⟨fuel - 1, by omega⟩
    have hchar := emit_after_once env e fid args f hbody
    show countFn fid
      (emitSeq env e rest (emit env (f + 1) e args (onceReg e fid emptyEvState))) = 1
    have hempty2 : emptyEvents (emit env (f + 1) e args (onceReg e fid emptyEvState)) := by
      intro q hq
      rw [hchar.1] at hq
      simp at hq
      simp [hq]
    rw [emitSeq_of_emptyEvents env e hempty2 rest]
    unfold countFn
    rw [hchar.2]
    simp

/-- Witness for `once_handler_invoked_exactly_once`: a handler that
re-emits its own event, registered via `$once` and emitted twice. -/
def onceWitEnv : Nat → FnBody := fun _ => ⟨[Eff.emitE "e" []], false, false⟩

theorem once_handler_invoked_exactly_once_witness :
    countFn 0 (emitSeq onceWitEnv "e" [(3, []), (2, [])] (onceReg "e" 0 emptyEvState)) = 1 :=
  once_handler_invoked_exactly_once onceWitEnv "e" 0 [(3, []), (2, [])]
    (by intro eff h; simp [onceWitEnv] at h; exact ⟨"e", [], h⟩)
    (by simp)
    (by intro p hp; simp at hp; rcases hp with h | h <;> simp [h])

/-! ### C3: the `$emit` snapshot discipline -/

/-- Whether a handler-body effect is a nested emit. -/
def isEmitEff : Eff → Bool
  | Eff.emitE _ _ => true
  | _ => false

theorem offEventFn_log (name : String) (fn : Cb) (st : EvState) :
    (offEventFn name fn st).log = st.log := by
  unfold offEventFn
  split
  · rfl
  · split
    · rfl
    · rfl

theorem runEffsWith_log_of_noEmit (emitF : String → List Nat → EvState → EvState) :
    ∀ effs : List Eff, (∀ eff ∈ effs, isEmitEff eff = false) →
      ∀ st : EvState, (runEffsWith emitF effs st).log = st.log := by
  intro effs
  induction effs with
  | nil => intro _ st; rfl
  | cons eff rest ih =>
    intro h st
    have hrest := fun e he => h e (List.mem_cons_of_mem _ he)
    cases eff with
    | emitE n a => exact absurd (h _ (List.mem_cons_self _ _)) (by simp [isEmitEff])
    | onE n fid =>
      show (runEffsWith emitF rest (onCb n (Cb.plain fid) st)).log = st.log
      rw [ih hrest]
      rfl
    | offE n fid =>
      show (runEffsWith emitF rest (offEventFn n (Cb.plain fid) st)).log = st.log
      rw [ih hrest, offEventFn_log]

theorem runFnWith_log_of_noEmit (env : Nat → FnBody)
    (emitF : String → List Nat → EvState → EvState) (fid : Nat) (args : List Nat)
    (st : EvState) (h : ∀ eff ∈ (env fid).effs, isEmitEff eff = false) :
    (runFnWith env emitF fid args st).1.log = st.log ++ [(fid, args)] := by
  show (runEffsWith emitF (env fid).effs
    { st with log := st.log ++ [(fid, args)] }).log = st.log ++ [(fid, args)]
  rw [runEffsWith_log_of_noEmit emitF _ h]

theorem invokeCbWith_log_of_noEmit (env : Nat → FnBody)
    (emitF : String → List Nat → EvState → EvState) (args : List Nat)
    (henv : ∀ fid, ∀ eff ∈ (env fid).effs, isEmitEff eff = false)
    (cb : Cb) (st : EvState) :
    (invokeCbWith env emitF args cb st).1.log = st.log ++ [(wrappedFid cb, args)] := by
  cases cb with
  | plain fid =>
    rcases hX : runFnWith env emitF fid args st with ⟨st', r⟩
    have := runFnWith_log_of_noEmit env emitF fid args st (henv fid)
    rw [hX] at this
    simp only [invokeCbWith, hX]
    exact this
  | onceW wid ev fid =>
    rcases hX : runFnWith env emitF fid args (offEventFn ev (Cb.onceW wid ev fid) st)
      with ⟨st', r⟩
    have := runFnWith_log_of_noEmit env emitF fid args
      (offEventFn ev (Cb.onceW wid ev fid) st) (henv fid)
    rw [hX, offEventFn_log] at this
    simp only [invokeCbWith, hX]
    exact this
  | parentOnceW wid ev fid =>
    rcases hX : runFnWith env emitF fid args st with ⟨st', r⟩
    have := runFnWith_log_of_noEmit env emitF fid args st (henv fid)
    rw [hX] at this
    simp only [invokeCbWith, hX]
    rcases r with _ | b
    · exact this
    · cases b
      · show (offEventFn ev (Cb.parentOnceW wid ev fid) st').log = _
        rw [offEventFn_log]
        exact this
      · exact this

theorem invokeListWith_log_of_noEmit (env : Nat → FnBody)
    (emitF : String → List Nat → EvState → EvState) (args : List Nat)
    (henv : ∀ fid, ∀ eff ∈ (env fid).effs, isEmitEff eff = false) :
    ∀ (cbs : List Cb) (st : EvState),
      (invokeListWith env emitF args cbs st).log =
        st.log ++ cbs.map (fun cb => (wrappedFid cb, args)) := by
  intro cbs
  induction cbs with
  | nil => intro st; simp [invokeListWith]
  | cons cb rest ih =>
    intro st
    show (invokeListWith env emitF args rest _).log = _
    rw [ih]
    have hlog2 :
        (if (invokeCbWith env emitF args cb st).2 then
            { (invokeCbWith env emitF args cb st).1 with
              reported := (invokeCbWith env emitF args cb st).1.reported + 1 }
          else (invokeCbWith env emitF args cb st).1).log =
        (invokeCbWith env emitF args cb st).1.log := by
      cases (invokeCbWith env emitF args cb st).2 <;> rfl
    rw [hlog2, invokeCbWith_log_of_noEmit env emitF args henv]
    simp

/-- C3: `$emit(e, args)` iterates over the callback array as registered at
the moment of the call (copied up front), invoking exactly those handlers,
in registration order, each with the emit's arguments; handlers that
subscribe (`onE`) or unsubscribe (`offE`) other handlers during the
emission do not change which handlers this emission invokes, and a handler
that throws is caught by `invokeWithErrorHandling`, so the remaining
handlers are still invoked.  (Handler bodies are restricted to
non-emitting effects so that the log records only this emission.) -/
theorem emit_invokes_snapshot_in_order (env : Nat → FnBody)
    (henv : ∀ fid, ∀ eff ∈ (env fid).effs, isEmitEff eff = false)
    (f : Nat) (e : String) (args : List Nat) (st : EvState) :
    (emit env (f + 1) e args st).log =
      st.log ++ (lookupEv st e).map (fun cb => (wrappedFid cb, args)) := by
  show (invokeListWith env (emit env f) args (lookupEv st e) st).log = _
  rw [invokeListWith_log_of_noEmit env (emit env f) args henv]

/-- Witness environment for C3: handler 1 throws, handler 2 unsubscribes
handler 3 from the same event, handler 3 subscribes a new handler. -/
def snapWitEnv : Nat → FnBody := fun fid =>
  if fid = 1 then ⟨[], true, false⟩
  else if fid = 2 then ⟨[Eff.offE "e" 3], false, false⟩
  else if fid = 3 then ⟨[Eff.onE "e" 9], false, false⟩
  else ⟨[], false, false⟩

def snapWitSt : EvState :=
  ⟨[("e", [Cb.plain 1, Cb.plain 2, Cb.plain 3])], false, 0, [], 0⟩

theorem emit_invokes_snapshot_in_order_witness :
    (emit snapWitEnv 1 "e" [7] snapWitSt).log = [(1, [7]), (2, [7]), (3, [7])] := by
  have h := emit_invokes_snapshot_in_order snapWitEnv
    (by
      intro fid eff he
      by_cases h1 : fid = 1
      · simp [snapWitEnv, h1] at he
      · by_cases h2 : fid = 2
        · simp [snapWitEnv, h1, h2] at he; simp [he, isEmitEff]
        · by_cases h3 : fid = 3
          · simp [snapWitEnv, h1, h2, h3] at he; simp [he, isEmitEff]
          · simp [snapWitEnv, h1, h2, h3] at he)
    0 "e" [7] snapWitSt
  rw [h]
  decide

/-! ### C4: `$off(event, fn)` removes the last-registered match -/

theorem removeLastMatch_of_no_match (fn : Cb) :
    ∀ l : List Cb, (∀ c ∈ l, cbMatch c fn = false) → removeLastMatch fn l = none := by
  intro l
  induction l with
  | nil => intro _; rfl
  | cons cb rest ih =>
    intro h
    show (match removeLastMatch fn rest with
      | some rest' => some (cb :: rest')
      | none => if cbMatch cb fn then some rest else none) = none
    rw [ih (fun c hc => h c (List.mem_cons_of_mem _ hc)), h cb (List.mem_cons_self _ _)]
    simp

theorem removeLastMatch_last (fn m : Cb) (post : List Cb)
    (hm : cbMatch m fn = true) (hpost : ∀ c ∈ post, cbMatch c fn = false) :
    ∀ pre : List Cb, removeLastMatch fn (pre ++ m :: post) = some (pre ++ post) := by
  intro pre
  induction pre with
  | nil =>
    show (match removeLastMatch fn post with
      | some rest' => some (m :: rest')
      | none => if cbMatch m fn then some post else none) = some post
    rw [removeLastMatch_of_no_match fn post hpost, hm]
    simp
  | cons cb pre' ih =>
    show (match removeLastMatch fn (pre' ++ m :: post) with
      | some rest' => some (cb :: rest')
      | none => if cbMatch cb fn then some (pre' ++ m :: post) else none) =
      some (cb :: (pre' ++ post))
    rw [ih]

/-- C4: when the callback array for `e` holds a last-registered match `m`
for `fn` (matching by identity or by wrapped original, `cbMatch`),
`$off(e, fn)` removes exactly that one registration — earlier matches in
`pre` survive — and leaves every other event's registrations unchanged flat. -/
theorem off_removes_last_registered_match (st : EvState) (e : String) (fn m : Cb)
    (pre post : List Cb)
    (hlk : st.events.lookup e = some (pre ++ m :: post))
    (hm : cbMatch m fn = true)
    (hpost : ∀ c ∈ post, cbMatch c fn = false) :
    lookupEv (offEventFn e fn st) e = pre ++ post ∧
    ∀ e', e' ≠ e → lookupEv (offEventFn e fn st) e' = lookupEv st e' := by
  have hoff : offEventFn e fn st =
      { st with events := setEv e (pre ++ post) st.events } := by
    unfold offEventFn
    rw [hlk]
    show (match removeLastMatch fn (pre ++ m :: post) with
      | none => st
      | some cbs' => { st with events := setEv e cbs' st.events }) = _
    rw [removeLastMatch_last fn m post hm hpost pre]
  rw [hoff]
  constructor
  · show ((setEv e (pre ++ post) st.events).lookup e).getD [] = pre ++ post
    rw [lookup_setEv_self]
    rfl
  · intro e' he'
    show ((setEv e (pre ++ post) st.events).lookup e').getD [] = (st.events.lookup e').getD []
    rw [lookup_setEv_other e e' _ he']

/-- Witness for C4: two plain registrations of fn 5 plus a `$once` wrapper
around fn 5; `$off("e", fn5)` removes the wrapper (the last match), keeping
the two earlier plain registrations and the other event untouched. -/
def offWitSt : EvState :=
  ⟨[("e", [Cb.plain 5, Cb.plain 5, Cb.onceW 0 "e" 5, Cb.plain 4]), ("f", [Cb.plain 5])],
    false, 1, [], 0⟩

theorem off_removes_last_registered_match_witness :
    lookupEv (offEventFn "e" (Cb.plain 5) offWitSt) "e" =
      [Cb.plain 5, Cb.plain 5, Cb.plain 4] ∧
    lookupEv (offEventFn "e" (Cb.plain 5) offWitSt) "f" = lookupEv offWitSt "f" :=
  have h := off_removes_last_registered_match offWitSt "e" (Cb.plain 5)
    (Cb.onceW 0 "e" 5) [Cb.plain 5, Cb.plain 5] [Cb.plain 4]
    (by decide) (by decide) (by decide)
  ⟨h.1, h.2 "f" (by decide)⟩

/-! ### C10: the `createOnceHandler` discipline -/


/-- One `$emit(e, args)` step when the sole subscriber is a
`createOnceHandler` wrapper whose `fn` returns `null`: `fn` is invoked
(the log grows) but — because `res !== null` fails — the wrapper does NOT
unsubscribe, so the whole event map is unchanged. -/
theorem emit_parentOnce_null (env : Nat → FnBody) (e : String) (fid w : Nat)
    (henv : env fid = ⟨[], false, true⟩) (f : Nat) (args : List Nat) (st : EvState)
    (hlk : st.events.lookup e = some [Cb.parentOnceW w e fid]) :
    emit env (f + 1) e args st = { st with log := st.log ++ [(fid, args)] } := by
  have hr : runFnWith env (emit env f) fid args st =
      ({ st with log := st.log ++ [(fid, args)] }, some true) := by
    simp [runFnWith, henv, runEffsWith]
  have hcb : invokeCbWith env (emit env f) args (Cb.parentOnceW w e fid) st =
      ({ st with log := st.log ++ [(fid, args)] }, false) := by
    simp only [invokeCbWith, hr]
  have hlkE : lookupEv st e = [Cb.parentOnceW w e fid] := by
    simp [lookupEv, hlk]
  show invokeListWith env (emit env f) args (lookupEv st e) st = _
  rw [hlkE]
  simp only [invokeListWith, hcb]
  simp



/-- `$emit` with a sole `createOnceHandler` subscriber whose `fn`
synchronously re-emits the same event (and returns non-null): because the
wrapper unsubscribes only AFTER `fn` returns, the re-emit still finds the
wrapper subscribed and invokes `fn` a second time. -/
theorem emit_parentOnce_reemit (env : Nat → FnBody) (e : String) (fid w : Nat)
    (args args2 : List Nat)
    (henv : env fid = ⟨[Eff.emitE e args2], false, false⟩) :
    (emit env 2 e args (onCb e (Cb.parentOnceW w e fid) emptyEvState)).log =
      [(fid, args), (fid, args2)] := by
  have hst0 : onCb e (Cb.parentOnceW w e fid) emptyEvState =
      (⟨[(e, [Cb.parentOnceW w e fid])], e.startsWith "hook:", 0, [], 0⟩ : EvState) := by
    simp [onCb, emptyEvState, lookupEv, setEv]
  -- innermost state after both invocation log entries
  have hoff2 : offEventFn e (Cb.parentOnceW w e fid)
      (⟨[(e, [Cb.parentOnceW w e fid])], e.startsWith "hook:", 0,
        [(fid, args), (fid, args2)], 0⟩ : EvState) =
      (⟨[(e, [])], e.startsWith "hook:", 0, [(fid, args), (fid, args2)], 0⟩ : EvState) := by
    simp [offEventFn, lookup_cons_self', removeLastMatch, cbMatch, setEv]
  -- run of fn at the inner (re-emitted) level, fuel 0 for its own body emit
  have hrun2 : runFnWith env (emit env 0) fid args2
      (⟨[(e, [Cb.parentOnceW w e fid])], e.startsWith "hook:", 0, [(fid, args)], 0⟩ : EvState) =
      ((⟨[(e, [Cb.parentOnceW w e fid])], e.startsWith "hook:", 0,
         [(fid, args), (fid, args2)], 0⟩ : EvState), some false) := by
    simp [runFnWith, henv, runEffsWith, emit]
  have hcb2 : invokeCbWith env (emit env 0) args2 (Cb.parentOnceW w e fid)
      (⟨[(e, [Cb.parentOnceW w e fid])], e.startsWith "hook:", 0, [(fid, args)], 0⟩ : EvState) =
      ((⟨[(e, [])], e.startsWith "hook:", 0, [(fid, args), (fid, args2)], 0⟩ : EvState),
        false) := by
    simp only [invokeCbWith, hrun2, hoff2]
  -- the inner $emit dispatch (fuel 1) performed from inside fn
  have hemit1 : emit env 1 e args2
      (⟨[(e, [Cb.parentOnceW w e fid])], e.startsWith "hook:", 0, [(fid, args)], 0⟩ : EvState) =
      (⟨[(e, [])], e.startsWith "hook:", 0, [(fid, args), (fid, args2)], 0⟩ : EvState) := by
    show invokeListWith env (emit env 0) args2 (lookupEv _ e) _ = _
    rw [show lookupEv (⟨[(e, [Cb.parentOnceW w e fid])], e.startsWith "hook:", 0,
      [(fid, args)], 0⟩ : EvState) e = [Cb.parentOnceW w e fid] by
        simp [lookupEv, lookup_cons_self']]
    simp only [invokeListWith, hcb2]
    simp
  -- the outer run of fn (fuel 1 available for its body emit)
  have hrun1 : runFnWith env (emit env 1) fid args
      (⟨[(e, [Cb.parentOnceW w e fid])], e.startsWith "hook:", 0, [], 0⟩ : EvState) =
      ((⟨[(e, [])], e.startsWith "hook:", 0, [(fid, args), (fid, args2)], 0⟩ : EvState),
        some false) := by
    show (runEffsWith (emit env 1) (env fid).effs
      (⟨[(e, [Cb.parentOnceW w e fid])], e.startsWith "hook:", 0, [(fid, args)], 0⟩ : EvState),
      if (env fid).throws then none else some (env fid).retNull) = _
    rw [henv]
    show (emit env 1 e args2
      (⟨[(e, [Cb.parentOnceW w e fid])], e.startsWith "hook:", 0, [(fid, args)], 0⟩ : EvState),
      some false) = _
    rw [hemit1]
  -- the outer wrapper tries to unsubscribe again: already gone, no-op
  have hoffGone : offEventFn e (Cb.parentOnceW w e fid)
      (⟨[(e, [])], e.startsWith "hook:", 0, [(fid, args), (fid, args2)], 0⟩ : EvState) =
      (⟨[(e, [])], e.startsWith "hook:", 0, [(fid, args), (fid, args2)], 0⟩ : EvState) := by
    simp [offEventFn, lookup_cons_self', removeLastMatch]
  have hcb1 : invokeCbWith env (emit env 1) args (Cb.parentOnceW w e fid)
      (⟨[(e, [Cb.parentOnceW w e fid])], e.startsWith "hook:", 0, [], 0⟩ : EvState) =
      ((⟨[(e, [])], e.startsWith "hook:", 0, [(fid, args), (fid, args2)], 0⟩ : EvState),
        false) := by
    simp only [invokeCbWith, hrun1, hoffGone]
  rw [hst0]
  show (invokeListWith env (emit env 1) args (lookupEv _ e) _).log = _
  rw [show lookupEv (⟨[(e, [Cb.parentOnceW w e fid])], e.startsWith "hook:", 0, [], 0⟩
    : EvState) e = [Cb.parentOnceW w e fid] by simp [lookupEv, lookup_cons_self']]
  simp only [invokeListWith, hcb1]
  simp



/-- C10: the `createOnceHandler` wrapper for parent-attached listeners has
the opposite discipline from `$once`: it invokes `fn` first and
unsubscribes only afterwards, and only when `fn`'s result is not `null`.
Part 1: with `fn` returning `null`, the wrapper stays subscribed, so a
second emit invokes `fn` again.  Part 2: with `fn` synchronously
re-emitting its own event, the re-emit still finds the wrapper subscribed
and `fn` runs a second time within the one outer emit. -/
theorem createOnceHandler_fires_then_unsubscribes :
    (∀ (env : Nat → FnBody) (e : String) (fid w f f2 : Nat) (args args2 : List Nat),
      env fid = ⟨[], false, true⟩ →
      lookupEv (emit env (f + 1) e args (onCb e (Cb.parentOnceW w e fid) emptyEvState)) e =
          [Cb.parentOnceW w e fid] ∧
      countFn fid (emit env (f + 1) e args (onCb e (Cb.parentOnceW w e fid) emptyEvState)) = 1 ∧
      countFn fid (emit env (f2 + 1) e args2
          (emit env (f + 1) e args (onCb e (Cb.parentOnceW w e fid) emptyEvState))) = 2) ∧
    (∀ (env : Nat → FnBody) (e : String) (fid w : Nat) (args args2 : List Nat),
      env fid = ⟨[Eff.emitE e args2], false, false⟩ →
      countFn fid (emit env 2 e args (onCb e (Cb.parentOnceW w e fid) emptyEvState)) = 2) := by
  constructor
  · intro env e fid w f f2 args args2 henv
    have hst0 : onCb e (Cb.parentOnceW w e fid) emptyEvState =
        (⟨[(e, [Cb.parentOnceW w e fid])], e.startsWith "hook:", 0, [], 0⟩ : EvState) := by
      simp [onCb, emptyEvState, lookupEv, setEv]
    have h1 : emit env (f + 1) e args
        (⟨[(e, [Cb.parentOnceW w e fid])], e.startsWith "hook:", 0, [], 0⟩ : EvState) =
        (⟨[(e, [Cb.parentOnceW w e fid])], e.startsWith "hook:", 0, [(fid, args)], 0⟩
          : EvState) := by
      rw [emit_parentOnce_null env e fid w henv f args _ (by simp [lookup_cons_self'])]
      rfl
    have h2 : emit env (f2 + 1) e args2
        (⟨[(e, [Cb.parentOnceW w e fid])], e.startsWith "hook:", 0, [(fid, args)], 0⟩
          : EvState) =
        (⟨[(e, [Cb.parentOnceW w e fid])], e.startsWith "hook:", 0,
          [(fid, args), (fid, args2)], 0⟩ : EvState) := by
      rw [emit_parentOnce_null env e fid w henv f2 args2 _ (by simp [lookup_cons_self'])]
      rfl
    rw [hst0, h1, h2]
    refine ⟨by simp [lookupEv, lookup_cons_self'], by simp [countFn], by simp [countFn]⟩
  · intro env e fid w args args2 henv
    unfold countFn
    rw [emit_parentOnce_reemit env e fid w args args2 henv]
    simp

def nullRetEnv : Nat → FnBody := fun _ => ⟨[], false, true⟩
def reemitEnv : Nat → FnBody := fun _ => ⟨[Eff.emitE "e" [2]], false, false⟩

theorem createOnceHandler_fires_then_unsubscribes_witness :
    countFn 0 (emit nullRetEnv 2 "e" [9]
        (emit nullRetEnv 1 "e" [] (onCb "e" (Cb.parentOnceW 0 "e" 0) emptyEvState))) = 2 ∧
    countFn 0 (emit reemitEnv 2 "e" [] (onCb "e" (Cb.parentOnceW 0 "e" 0) emptyEvState)) = 2 :=
  ⟨(createOnceHandler_fires_then_unsubscribes.1 nullRetEnv "e" 0 0 0 1 [] [9] rfl).2.2,
   createOnceHandler_fires_then_unsubscribes.2 reemitEnv "e" 0 0 [] [2] rfl⟩

/-! ## C1: the two process-wide slots (`activeInstance`, `Dep.target`)

`lifecycle.js` keeps a module-level `activeInstance`; `_update` swaps it
via `setActiveInstance(vm)` and calls the returned restore closure after
`vm.__patch__(...)`.  There is no try/finally around the patch call, so a
throwing patch unwinds `_update` before the restore runs.  `callHook`
brackets hook dispatch in `pushTarget()` / `popTarget()`; every handler in
between runs through `invokeWithErrorHandling`, which catches. -/

/-- `_update`'s handling of the process-wide active-instance slot
(`Option Nat` = instance uid or `null`).  The patch collaborator receives
the swapped-in slot (nested mounts may save/restore it themselves) and
either completes, yielding the slot value it left behind, or throws; a
thrown error carries the slot value at the moment of the throw, and
`_update` propagates it WITHOUT running `restoreActiveInstance`. -/
def updateActiveSlot (vm : Nat)
    (patchFn : Option Nat → Except (Option Nat) (Option Nat))
    (active : Option Nat) : Except (Option Nat) (Option Nat) :=
  let prevActiveInstance := active
  match patchFn (some vm) with
  | Except.ok _ => Except.ok prevActiveInstance
  | Except.error aErr => Except.error aErr

/-- State for `callHook`'s tracking-slot discipline: the dependency
module's target stack and current target, plus observable counters. -/
structure HookSt where
  targetStack : List (Option Nat)
  target : Option Nat
  invoked : Nat
  reported : Nat
  deriving DecidableEq, Repr

/-- Modelled from the spec: `pushTarget` of the dependency module
(`src/core/observer/dep.js` is not among the sources; spec §4.1 specifies
"`pushTarget(computation)` saves and replaces this context").  The prior
slot is saved on a stack and the slot replaced; `callHook` pushes the
undefined/null computation. -/
def pushTarget (t : Option Nat) (st : HookSt) : HookSt :=
  { st with targetStack := t :: st.targetStack, target := t }

/-- Modelled from the spec: `popTarget` — "restores the prior context"
(spec §4.1): drop the saved entry and set the slot to the value below it
(none once the stack empties). -/
def popTarget (st : HookSt) : HookSt :=
  let s := st.targetStack.tail
  { st with targetStack := s, target := (s.head?).getD none }

/-- One hook (or `hook:` event) handler run through
`invokeWithErrorHandling`: the handler executes; a throw is caught and
reported, never propagated, and the tracking slot is untouched. -/
def invokeHookHandler (throws : Bool) (st : HookSt) : HookSt :=
  if throws then { st with invoked := st.invoked + 1, reported := st.reported + 1 }
  else { st with invoked := st.invoked + 1 }

/-- `callHook(vm, hook)`: `pushTarget()`, invoke every registered handler
for the phase through `invokeWithErrorHandling`, then — when
`_hasHookEvent` — `$emit("hook:" + hook)` (each event callback again
individually wrapped), then `popTarget()`.  Handlers are abstracted to
their observable effect on this state: whether they throw. -/
def callHookSlots (handlers : List Bool) (hasHookEvent : Bool) (hookCbs : List Bool)
    (st : HookSt) : HookSt :=
  let st1 := pushTarget none st
  let st2 := handlers.foldl (fun s h => invokeHookHandler h s) st1
  let st3 :=
    if hasHookEvent then hookCbs.foldl (fun s h => invokeHookHandler h s) st2 else st2
  popTarget st3

theorem invokeHookHandler_fold_stack (hs : List Bool) :
    ∀ st : HookSt,
      (hs.foldl (fun s h => invokeHookHandler h s) st).targetStack = st.targetStack ∧
      (hs.foldl (fun s h => invokeHookHandler h s) st).target = st.target := by
  induction hs with
  | nil => intro st; exact ⟨rfl, rfl⟩
  | cons h rest ih =>
    intro st
    have hpres : (invokeHookHandler h st).targetStack = st.targetStack ∧
        (invokeHookHandler h st).target = st.target := by
      cases h <;> exact ⟨rfl, rfl⟩
    have := ih (invokeHookHandler h st)
    exact ⟨this.1.trans hpres.1, this.2.trans hpres.2⟩

/-- C1, counterexample: the active-instance slot is NOT restored on the
exit path where the patch collaborator throws.  With prior slot `null` and
`vm = 1`, a patch that throws immediately leaves the slot at `some 1`
(the error value carries the slot at the throw), not restored to `none`. -/
theorem active_slot_not_restored_when_patch_throws :
    updateActiveSlot 1 (fun a => Except.error a) none = Except.error (some 1) ∧
    some 1 ≠ (none : Option Nat) :=
  ⟨rfl, by decide⟩

/-- C1 as amended: (1) whenever the patch call returns normally, `_update`
restores the active-instance slot to its prior value — whatever slot state
the patch left behind; (2) `callHook` restores the tracking-slot stack on
every exit path, including when hook handlers or `hook:` event callbacks
throw, because every one of them is individually wrapped in
`invokeWithErrorHandling`, which catches; the slot itself returns to its
prior value whenever it was consistent with the saved stack (the module
invariant).  Only the path where patch itself throws escapes without
restoring the active-instance slot. -/
theorem process_slots_restored_amended :
    (∀ (vm : Nat) (patchFn : Option Nat → Except (Option Nat) (Option Nat))
        (active a2 : Option Nat), patchFn (some vm) = Except.ok a2 →
      updateActiveSlot vm patchFn active = Except.ok active) ∧
    (∀ (handlers hookCbs : List Bool) (hasHookEvent : Bool) (st : HookSt),
      (callHookSlots handlers hasHookEvent hookCbs st).targetStack = st.targetStack ∧
      (st.target = (st.targetStack.head?).getD none →
        (callHookSlots handlers hasHookEvent hookCbs st).target = st.target)) := by
  constructor
  · intro vm patchFn active a2 hok
    unfold updateActiveSlot
    rw [hok]
  · intro handlers hookCbs hasHookEvent st
    have h2 := invokeHookHandler_fold_stack handlers (pushTarget none st)
    have hstack3 :
        (callHookSlots handlers hasHookEvent hookCbs st).targetStack =
          st.targetStack ∧
        (callHookSlots handlers hasHookEvent hookCbs st).target =
          (st.targetStack.head?).getD none := by
      unfold callHookSlots
      cases hasHookEvent with
      | false =>
        constructor
        · show ((handlers.foldl (fun s h => invokeHookHandler h s)
            (pushTarget none st)).targetStack.tail) = st.targetStack
          rw [h2.1]
          rfl
        · show ((handlers.foldl (fun s h => invokeHookHandler h s)
            (pushTarget none st)).targetStack.tail.head?).getD none = _
          rw [h2.1]
          rfl
      | true =>
        have h3 := invokeHookHandler_fold_stack hookCbs
          (handlers.foldl (fun s h => invokeHookHandler h s) (pushTarget none st))
        constructor
        · show ((hookCbs.foldl (fun s h => invokeHookHandler h s) _).targetStack.tail)
            = st.targetStack
          rw [h3.1, h2.1]
          rfl
        · show ((hookCbs.foldl (fun s h => invokeHookHandler h s)
            _).targetStack.tail.head?).getD none = _
          rw [h3.1, h2.1]
          rfl
    exact ⟨hstack3.1, fun hc => hstack3.2.trans hc.symm⟩

theorem process_slots_restored_amended_witness :
    updateActiveSlot 1 (fun a => Except.ok a) (some 5) = Except.ok (some 5) ∧
    (callHookSlots [true, false] true [true] ⟨[some 3], some 3, 0, 0⟩).targetStack
      = [some 3] :=
  ⟨process_slots_restored_amended.1 1 (fun a => Except.ok a) (some 5) (some 1) rfl,
   (process_slots_restored_amended.2 [true, false] [true] true ⟨[some 3], some 3, 0, 0⟩).1⟩

/-! ## C8, C9: `_render` in `render.js`

The part of `Vue.prototype._render` downstream of the user render call:
the try/catch with the last-good-tree fallback, and the single-root
normalisation of the result. -/

/-- A virtual tree node.  `createEmptyVNode()` produces a comment VNode —
still `instanceof VNode` — modelled as `emptyV`. -/
inductive VNodeT where
  | real (id : Nat)
  | emptyV
  deriving DecidableEq, Repr

/-- Possible outcomes of calling a render function:
a single tree node, an array of nodes, some non-node value, or a throw. -/
inductive RenderOut where
  | vnode (v : VNodeT)
  | arr (vs : List VNodeT)
  | nonNode
  | thrown
  deriving DecidableEq, Repr

/-- The JS value held by the local `vnode` after the try/catch
(`nullV` covers `vm._vnode` being null/undefined before any render). -/
inductive JSVal where
  | vnodeV (v : VNodeT)
  | arrV (vs : List VNodeT)
  | otherV
  | nullV
  deriving DecidableEq, Repr

def prevToJS : Option VNodeT → JSVal
  | none => JSVal.nullV
  | some v => JSVal.vnodeV v

/-- A render outcome as a JS value; `none` when the call threw. -/
def outToJS : RenderOut → Option JSVal
  | RenderOut.vnode v => some (JSVal.vnodeV v)
  | RenderOut.arr vs => some (JSVal.arrV vs)
  | RenderOut.nonNode => some JSVal.otherV
  | RenderOut.thrown => none

/-- The try/catch of `_render` around `render.call(vm._renderProxy, ...)`:
on a throw, `handleError(e, vm, "render")` reports it; in dev with a
`renderError` option that fallback runs (its own throw reported as
"renderError", falling back to `vm._vnode`); without one,
`vnode = vm._vnode` — the previous tree, or null on a first render.
Returns the resulting JS value plus the errors reported. -/
def renderCatch (res : RenderOut) (renderErrorOpt : Option RenderOut)
    (prev : Option VNodeT) : JSVal × List String :=
  match outToJS res with
  | some v => (v, [])
  | none =>
    match renderErrorOpt with
    | some re =>
      match outToJS re with
      | some v => (v, ["render"])
      | none => (prevToJS prev, ["render", "renderError"])
    | none => (prevToJS prev, ["render"])

/-- `if (Array.isArray(vnode) && vnode.length === 1) vnode = vnode[0]`. -/
def renderUnwrap : JSVal → JSVal
  | JSVal.arrV [v0] => JSVal.vnodeV v0
  | v => v

/-- `if (!(vnode instanceof VNode))`: a surviving array (length ≠ 1) gets
the dev multi-root warning; any non-VNode becomes `createEmptyVNode()`.
Returns the final node plus the warnings issued. -/
def renderFinalize (v : JSVal) : VNodeT × List String :=
  match renderUnwrap v with
  | JSVal.vnodeV v0 => (v0, [])
  | JSVal.arrV _ => (VNodeT.emptyV, ["multi-root"])
  | JSVal.otherV => (VNodeT.emptyV, [])
  | JSVal.nullV => (VNodeT.emptyV, [])

/-- `_render` downstream of the render call: try/catch fallback, then
single-root normalisation.  Result: final vnode, errors routed to
`handleError`, dev warnings.  (The assignment `vnode.parent = _parentVnode`
and the scoped-slot bookkeeping touch no claim and are not modelled.) -/
def renderRun (res : RenderOut) (renderErrorOpt : Option RenderOut)
    (prev : Option VNodeT) : VNodeT × List String × List String :=
  let p := renderCatch res renderErrorOpt prev
  let q := renderFinalize p.1
  (q.1, p.2, q.2)

/-- C8: when the render function throws on a run after at least one
successful render (`vm._vnode = some prev`) and no `renderError` option is
set, `_render` reports the error and returns the previously rendered tree
unchanged — the instance keeps its last-good output. -/
theorem render_throw_falls_back_to_prev_vnode (prev : VNodeT) :
    renderRun RenderOut.thrown none (some prev) = (prev, ["render"], []) := rfl

/-- C9: a returned array is unwrapped to its sole element exactly when its
length is 1; any other array — and any non-node result — is replaced by
the empty placeholder node, and a surviving (multi-root) array is
additionally warned about. -/
theorem render_single_root_normalisation (reOpt : Option RenderOut)
    (prev : Option VNodeT) :
    (∀ v0 : VNodeT, renderRun (RenderOut.arr [v0]) reOpt prev = (v0, [], [])) ∧
    (∀ vs : List VNodeT, vs.length ≠ 1 →
      (renderRun (RenderOut.arr vs) reOpt prev).1 = VNodeT.emptyV) ∧
    (∀ vs : List VNodeT, 2 ≤ vs.length →
      (renderRun (RenderOut.arr vs) reOpt prev).2.2 = ["multi-root"]) ∧
    (renderRun RenderOut.nonNode reOpt prev).1 = VNodeT.emptyV := by
  refine ⟨fun v0 => rfl, ?_, ?_, rfl⟩
  · intro vs hlen
    match vs with
    | [] => rfl
    | [v0] => exact absurd rfl hlen
    | v0 :: v1 :: rest => rfl
  · intro vs hlen
    match vs with
    | [] => simp at hlen
    | [v0] => simp at hlen
    | v0 :: v1 :: rest => rfl

theorem render_single_root_normalisation_witness :
    renderRun (RenderOut.arr [VNodeT.real 4]) none none = (VNodeT.real 4, [], []) ∧
    (renderRun (RenderOut.arr [VNodeT.real 4, VNodeT.real 5]) none none).1
      = VNodeT.emptyV ∧
    (renderRun (RenderOut.arr [VNodeT.real 4, VNodeT.real 5]) none none).2.2
      = ["multi-root"] :=
  ⟨(render_single_root_normalisation none none).1 (VNodeT.real 4),
   (render_single_root_normalisation none none).2.1 [VNodeT.real 4, VNodeT.real 5]
     (by decide),
   (render_single_root_normalisation none none).2.2.1 [VNodeT.real 4, VNodeT.real 5]
     (by decide)⟩

/-! ## C7: `resolveInject` in `inject.js`

Injected values are opaque (modelled as `Nat`).  The parent chain is the
list of instances from the requesting instance upward, each contributing
its `_provided` object (or nothing when unset). -/

/-- A declared default: a plain value, or a factory function called with
the requesting instance (`provideDefault.call(vm)`). -/
inductive DefaultV where
  | val (v : Nat)
  | fn (f : Nat → Nat)

/-- One normalised inject declaration: the `from` lookup key (a Lean
keyword, hence `fromKey`) and the optional `default`. -/
structure InjEntry where
  fromKey : String
  dflt : Option DefaultV

/-- `source._provided && hasOwn(source._provided, provideKey)`. -/
def hasOwnProvided : Option (List (String × Nat)) → String → Bool
  | none, _ => false
  | some l, key => (l.lookup key).isSome

/-- The `while (source)` walk: starting at the instance itself, take the
value from the first chain member whose own `_provided` has `provideKey`;
`none` once the chain is exhausted (`source` became null). -/
def findProvided (key : String) : List (Option (List (String × Nat))) → Option Nat
  | [] => none
  | src :: rest =>
    match src with
    | some provided =>
      match provided.lookup key with
      | some v => some v
      | none => findProvided key rest
    | none => findProvided key rest

/-- The per-key body of the `resolveInject` loop: chain value if found;
otherwise the declared default (a factory is called with the requesting
instance); otherwise no result and a dev warning naming the key. -/
def resolveKey (vmId : Nat) (chain : List (Option (List (String × Nat))))
    (k : String) (entry : InjEntry) : Option Nat × List String :=
  match findProvided entry.fromKey chain with
  | some v => (some v, [])
  | none =>
    match entry.dflt with
    | some (DefaultV.val v) => (some v, [])
    | some (DefaultV.fn f) => (some (f vmId), [])
    | none => (none, [k])

/-- The `for` loop of `resolveInject` over the inject keys in declaration
order, skipping the observer artefact key `"__ob__"`.  Returns the result
object (as an assoc list in insertion order) and the warnings issued. -/
def resolveEntries (vmId : Nat) (chain : List (Option (List (String × Nat)))) :
    List (String × InjEntry) → List (String × Nat) × List String
  | [] => ([], [])
  | (k, entry) :: rest =>
    if k = "__ob__" then resolveEntries vmId chain rest
    else
      let r := resolveEntries vmId chain rest
      match resolveKey vmId chain k entry with
      | (some v, ws) => ((k, v) :: r.1, ws ++ r.2)
      | (none, ws) => (r.1, ws ++ r.2)

/-- `resolveInject(inject, vm)`: `undefined` when the instance declares no
inject option. -/
def resolveInject (inject : Option (List (String × InjEntry))) (vmId : Nat)
    (chain : List (Option (List (String × Nat)))) :
    Option (List (String × Nat) × List String) :=
  match inject with
  | none => none
  | some entries => some (resolveEntries vmId chain entries)

theorem hasOwnProvided_false_lookup {l : List (String × Nat)} {key : String}
    (h : hasOwnProvided (some l) key = false) : l.lookup key = none := by
  cases hc : l.lookup key with
  | none => rfl
  | some w => simp [hasOwnProvided, hc] at h

theorem findProvided_eq_none (key : String) :
    ∀ chain, (∀ s ∈ chain, hasOwnProvided s key = false) →
      findProvided key chain = none := by
  intro chain
  induction chain with
  | nil => intro _; rfl
  | cons src rest ih =>
    intro h
    have hrest := fun s hs => h s (List.mem_cons_of_mem _ hs)
    have hsrc := h src (List.mem_cons_self _ _)
    cases src with
    | none => exact ih hrest
    | some l =>
      show (match l.lookup key with
        | some v => some v
        | none => findProvided key rest) = none
      rw [hasOwnProvided_false_lookup hsrc]
      exact ih hrest

theorem findProvided_nearest (key : String) (v : Nat)
    (csrc : List (String × Nat)) (cpost : List (Option (List (String × Nat))))
    (hsrc : csrc.lookup key = some v) :
    ∀ cpre, (∀ s ∈ cpre, hasOwnProvided s key = false) →
      findProvided key (cpre ++ some csrc :: cpost) = some v := by
  intro cpre
  induction cpre with
  | nil =>
    intro _
    show (match csrc.lookup key with
      | some v => some v
      | none => findProvided key cpost) = some v
    rw [hsrc]
  | cons s cpre' ih =>
    intro h
    have hrest := fun s' hs' => h s' (List.mem_cons_of_mem _ hs')
    have hs := h s (List.mem_cons_self _ _)
    cases s with
    | none => exact ih hrest
    | some l =>
      show (match l.lookup key with
        | some v => some v
        | none => findProvided key (cpre' ++ some csrc :: cpost)) = some v
      rw [hasOwnProvided_false_lookup hs]
      exact ih hrest

theorem resolveEntries_lookup_absent (vmId : Nat)
    (chain : List (Option (List (String × Nat)))) (k : String) :
    ∀ entries : List (String × InjEntry), k ∉ entries.map Prod.fst →
      ((resolveEntries vmId chain entries).1.lookup k) = none := by
  intro entries
  induction entries with
  | nil => intro _; rfl
  | cons p rest ih =>
    intro h
    obtain ⟨k', entry⟩ := p
    have hk' : k ≠ k' := by
      intro he
      exact h (by simp [he])
    have hrest : k ∉ rest.map Prod.fst := fun hm => h (by simp; right; simpa using hm)
    by_cases hob : k' = "__ob__"
    · simp only [resolveEntries]
      rw [if_pos hob]
      exact ih hrest
    · rcases hres : resolveKey vmId chain k' entry with ⟨ov, ws⟩
      cases ov with
      | none =>
        simp only [resolveEntries]
        rw [if_neg hob, hres]
        exact ih hrest
      | some v =>
        simp only [resolveEntries]
        rw [if_neg hob, hres]
        show ((k', v) :: (resolveEntries vmId chain rest).1).lookup k = none
        rw [lookup_cons_ne'' k k' v _ hk']
        exact ih hrest

theorem resolveEntries_lookup_mid (vmId : Nat)
    (chain : List (Option (List (String × Nat)))) (k : String) (entry : InjEntry)
    (post : List (String × InjEntry)) (hk2 : k ∉ post.map Prod.fst)
    (hob : k ≠ "__ob__") :
    ∀ pre : List (String × InjEntry), k ∉ pre.map Prod.fst →
      ((resolveEntries vmId chain (pre ++ (k, entry) :: post)).1.lookup k
        = (resolveKey vmId chain k entry).1) ∧
      (∀ w ∈ (resolveKey vmId chain k entry).2,
        w ∈ (resolveEntries vmId chain (pre ++ (k, entry) :: post)).2) := by
  intro pre
  induction pre with
  | nil =>
    intro _
    rcases hres : resolveKey vmId chain k entry with ⟨ov, ws⟩
    cases ov with
    | some v =>
      constructor
      · show (resolveEntries vmId chain ((k, entry) :: post)).1.lookup k = _
        simp only [resolveEntries]
        rw [if_neg hob, hres]
        show ((k, v) :: (resolveEntries vmId chain post).1).lookup k = (some v, ws).1
        rw [lookup_cons_self']
      · intro w hw
        show w ∈ (resolveEntries vmId chain ((k, entry) :: post)).2
        simp only [resolveEntries]
        rw [if_neg hob, hres]
        exact List.mem_append_left _ hw
    | none =>
      constructor
      · show (resolveEntries vmId chain ((k, entry) :: post)).1.lookup k = _
        simp only [resolveEntries]
        rw [if_neg hob, hres]
        show (resolveEntries vmId chain post).1.lookup k = (none, ws).1
        exact resolveEntries_lookup_absent vmId chain k post hk2
      · intro w hw
        show w ∈ (resolveEntries vmId chain ((k, entry) :: post)).2
        simp only [resolveEntries]
        rw [if_neg hob, hres]
        exact List.mem_append_left _ hw
  | cons p pre' ih =>
    intro h
    obtain ⟨k', entry'⟩ := p
    have hk' : k ≠ k' := by
      intro he
      exact h (by simp [he])
    have hpre' : k ∉ pre'.map Prod.fst := fun hm => h (by simp; right; simpa using hm)
    have ihp := ih hpre'
    by_cases hob' : k' = "__ob__"
    · constructor
      · show (resolveEntries vmId chain ((k', entry') :: (pre' ++ (k, entry) :: post))).1.lookup k
            = _
        simp only [resolveEntries]
        rw [if_pos hob']
        exact ihp.1
      · intro w hw
        show w ∈ (resolveEntries vmId chain ((k', entry') :: (pre' ++ (k, entry) :: post))).2
        simp only [resolveEntries]
        rw [if_pos hob']
        exact ihp.2 w hw
    · rcases hres : resolveKey vmId chain k' entry' with ⟨ov, ws⟩
      cases ov with
      | some v =>
        constructor
        · show (resolveEntries vmId chain ((k', entry') :: (pre' ++ (k, entry) :: post))).1.lookup k
              = _
          simp only [resolveEntries]
          rw [if_neg hob', hres]
          show ((k', v) :: (resolveEntries vmId chain (pre' ++ (k, entry) :: post)).1).lookup k
            = _
          rw [lookup_cons_ne'' k k' v _ hk']
          exact ihp.1
        · intro w hw
          show w ∈ (resolveEntries vmId chain ((k', entry') :: (pre' ++ (k, entry) :: post))).2
          simp only [resolveEntries]
          rw [if_neg hob', hres]
          exact List.mem_append_right _ (ihp.2 w hw)
      | none =>
        constructor
        · show (resolveEntries vmId chain ((k', entry') :: (pre' ++ (k, entry) :: post))).1.lookup k
              = _
          simp only [resolveEntries]
          rw [if_neg hob', hres]
          exact ihp.1
        · intro w hw
          show w ∈ (resolveEntries vmId chain ((k', entry') :: (pre' ++ (k, entry) :: post))).2
          simp only [resolveEntries]
          rw [if_neg hob', hres]
          exact List.mem_append_right _ (ihp.2 w hw)

/-- C7: per inject key `k` (declared with lookup key `entry.fromKey`,
occurring once among the declarations, not the observer artefact), with
the chain walked from the instance itself upward:
(a) the value provided by the nearest chain member owning `fromKey` wins —
everything farther is shadowed;
(b) when no chain member provides it, the declared default value — or
default factory evaluated with the requesting instance — is used;
(c) with neither, the key is absent from the result and a non-fatal
warning naming it is issued. -/
theorem resolveInject_nearest_provider_or_default (vmId : Nat)
    (chain : List (Option (List (String × Nat)))) (k : String) (entry : InjEntry)
    (pre post : List (String × InjEntry))
    (hk1 : k ∉ pre.map Prod.fst) (hk2 : k ∉ post.map Prod.fst)
    (hob : k ≠ "__ob__") :
    (∀ (cpre cpost : List (Option (List (String × Nat))))
        (csrc : List (String × Nat)) (v : Nat),
      chain = cpre ++ some csrc :: cpost →
      (∀ s ∈ cpre, hasOwnProvided s entry.fromKey = false) →
      csrc.lookup entry.fromKey = some v →
      ∃ res, resolveInject (some (pre ++ (k, entry) :: post)) vmId chain = some res ∧
        res.1.lookup k = some v) ∧
    ((∀ s ∈ chain, hasOwnProvided s entry.fromKey = false) →
      (∀ v, entry.dflt = some (DefaultV.val v) →
        ∃ res, resolveInject (some (pre ++ (k, entry) :: post)) vmId chain = some res ∧
          res.1.lookup k = some v) ∧
      (∀ f, entry.dflt = some (DefaultV.fn f) →
        ∃ res, resolveInject (some (pre ++ (k, entry) :: post)) vmId chain = some res ∧
          res.1.lookup k = some (f vmId)) ∧
      (entry.dflt = none →
        ∃ res, resolveInject (some (pre ++ (k, entry) :: post)) vmId chain = some res ∧
          res.1.lookup k = none ∧ k ∈ res.2)) := by
  have hmid := resolveEntries_lookup_mid vmId chain k entry post hk2 hob pre hk1
  constructor
  · intro cpre cpost csrc v hchain hshadow hsrc
    refine ⟨resolveEntries vmId chain (pre ++ (k, entry) :: post), rfl, ?_⟩
    rw [hmid.1]
    unfold resolveKey
    rw [hchain, findProvided_nearest entry.fromKey v csrc cpost hsrc cpre hshadow]
  · intro hnone
    have hfp : findProvided entry.fromKey chain = none :=
      findProvided_eq_none entry.fromKey chain hnone
    refine ⟨?_, ?_, ?_⟩
    · intro v hd
      refine ⟨resolveEntries vmId chain (pre ++ (k, entry) :: post), rfl, ?_⟩
      rw [hmid.1]
      unfold resolveKey
      rw [hfp, hd]
    · intro f hd
      refine ⟨resolveEntries vmId chain (pre ++ (k, entry) :: post), rfl, ?_⟩
      rw [hmid.1]
      unfold resolveKey
      rw [hfp, hd]
    · intro hd
      refine ⟨resolveEntries vmId chain (pre ++ (k, entry) :: post), rfl, ?_, ?_⟩
      · rw [hmid.1]
        unfold resolveKey
        rw [hfp, hd]
      · apply hmid.2
        unfold resolveKey
        rw [hfp, hd]
        simp

/-- Witness for C7: child requests `"theme"`; the nearest providing
ancestor (value 1, "dark") wins over the farther one (value 0, "light");
and a missing key falls back to a default factory applied to the
requesting instance (id 7 ↦ 8). -/
theorem resolveInject_nearest_provider_or_default_witness :
    (∃ res, resolveInject (some [("theme", ⟨"theme", none⟩)]) 7
        [none, some [("theme", 1)], some [("theme", 0)]] = some res ∧
      res.1.lookup "theme" = some 1) ∧
    (∃ res, resolveInject (some [("k2", ⟨"missing", some (DefaultV.fn (fun vm => vm + 1))⟩)])
        7 [none] = some res ∧
      res.1.lookup "k2" = some 8) :=
  ⟨(resolveInject_nearest_provider_or_default 7
      [none, some [("theme", 1)], some [("theme", 0)]] "theme" ⟨"theme", none⟩ [] []
      (by simp) (by simp) (by decide)).1
      [none] [some [("theme", 0)]] [("theme", 1)] 1 rfl (by decide) (by decide),
   ((resolveInject_nearest_provider_or_default 7 [none] "k2"
      ⟨"missing", some (DefaultV.fn (fun vm => vm + 1))⟩ [] []
      (by simp) (by simp) (by decide)).2 (by decide)).2.1 (fun vm => vm + 1) rfl⟩

/-! ## C6: `activateChildComponent` / `deactivateChildComponent`

Keep-alive activation state over a component subtree: `_inactive` is
tri-state (`none` = the initial `null`), `_directInactive` plain Boolean.
`isInInactiveTree` walks `vm.$parent` upward; in this subtree-local
embedding its result is supplied as the `anc` argument — the source
consults it only on `direct` calls, and recursive calls into children pass
no `direct`. -/

inductive KTree where
  | node (id : Nat) (inactive : Option Bool) (directInactive : Bool)
      (children : List KTree)
  deriving Repr

def KTree.dirInact : KTree → Bool
  | KTree.node _ _ di _ => di

def KTree.inact : KTree → Option Bool
  | KTree.node _ ia _ _ => ia

mutual
/-- `activateChildComponent(vm, direct)`: on a direct call clear
`_directInactive` and bail out when an ancestor is still inactive; on a
recursive (non-direct) call bail out when the instance was directly
deactivated; then, when `_inactive` is truthy or still `null`, clear it,
recurse into the children without `direct`, and fire `activated`.
Returns the updated subtree and the hook log. -/
def activateCC (direct : Bool) (anc : Bool) : KTree → KTree × List (Nat × String)
  | KTree.node i ia di ch =>
    if direct then
      if anc then (KTree.node i ia false ch, [])
      else if ia = some true ∨ ia = none then
        let r := activateList ch
        (KTree.node i (some false) false r.1, r.2 ++ [(i, "activated")])
      else (KTree.node i ia false ch, [])
    else
      if di then (KTree.node i ia di ch, [])
      else if ia = some true ∨ ia = none then
        let r := activateList ch
        (KTree.node i (some false) di r.1, r.2 ++ [(i, "activated")])
      else (KTree.node i ia di ch, [])

def activateList : List KTree → List KTree × List (Nat × String)
  | [] => ([], [])
  | t :: rest =>
    let r := activateCC false false t
    let rs := activateList rest
    (r.1 :: rs.1, r.2 ++ rs.2)
end

mutual
/-- `deactivateChildComponent(vm, direct)`: on a direct call set
`_directInactive` and bail out when an ancestor is already inactive; then,
when `_inactive` is falsy (`false` or the initial `null`), set it, recurse
into the children without `direct`, and fire `deactivated`. -/
def deactivateCC (direct : Bool) (anc : Bool) : KTree → KTree × List (Nat × String)
  | KTree.node i ia di ch =>
    if direct then
      if anc then (KTree.node i ia true ch, [])
      else if ia ≠ some true then
        let r := deactivateList ch
        (KTree.node i (some true) true r.1, r.2 ++ [(i, "deactivated")])
      else (KTree.node i ia true ch, [])
    else
      if ia ≠ some true then
        let r := deactivateList ch
        (KTree.node i (some true) di r.1, r.2 ++ [(i, "deactivated")])
      else (KTree.node i ia di ch, [])

def deactivateList : List KTree → List KTree × List (Nat × String)
  | [] => ([], [])
  | t :: rest =>
    let r := deactivateCC false false t
    let rs := deactivateList rest
    (r.1 :: rs.1, r.2 ++ rs.2)
end

/-- C6: independent (direct) deactivation is sticky.
Part 1, in general: a non-direct activation pass — the kind an ancestor's
direct reactivation sends into its children — is a complete no-op on any
subtree whose root was directly deactivated: no flag changes, no
`activated` hooks anywhere below it.
Part 2, the claim's scenario end to end: deactivate child `x` directly,
then deactivate its parent `a` directly, then reactivate only `a`:
`a` comes back active but `x` stays `_inactive = true` and its `activated`
hook does not fire. -/
theorem direct_deactivation_sticky :
    (∀ (t : KTree) (anc : Bool), t.dirInact = true →
      activateCC false anc t = (t, [])) ∧
    (∀ a x : Nat, a ≠ x →
      (activateCC true false
        (deactivateCC true false
          (KTree.node a (some false) false
            [(deactivateCC true false (KTree.node x (some false) false [])).1])).1).1
        = KTree.node a (some false) false [KTree.node x (some true) true []] ∧
      (activateCC true false
        (deactivateCC true false
          (KTree.node a (some false) false
            [(deactivateCC true false (KTree.node x (some false) false [])).1])).1).2
        = [(a, "activated")] ∧
      (x, "activated") ∉
        (activateCC true false
          (deactivateCC true false
            (KTree.node a (some false) false
              [(deactivateCC true false (KTree.node x (some false) false [])).1])).1).2) := by
  constructor
  · intro t anc hdi
    cases t with
    | node i ia di ch =>
      simp only [KTree.dirInact] at hdi
      subst hdi
      rfl
  · intro a x hax
    refine ⟨rfl, rfl, ?_⟩
    show (x, "activated") ∉ [(a, "activated")]
    simp
    intro he
    exact absurd he.symm hax

theorem direct_deactivation_sticky_witness :
    activateCC false false (KTree.node 3 (some true) true []) =
      (KTree.node 3 (some true) true [], []) ∧
    (activateCC true false
      (deactivateCC true false
        (KTree.node 0 (some false) false
          [(deactivateCC true false (KTree.node 1 (some false) false [])).1])).1).1
      = KTree.node 0 (some false) false [KTree.node 1 (some true) true []] :=
  ⟨direct_deactivation_sticky.1 (KTree.node 3 (some true) true []) false rfl,
   (direct_deactivation_sticky.2 0 1 (by decide)).1⟩


/-! ## C5: `Vue.prototype.$destroy`

A world of instances (an arena keyed by uid), reactive cells with their
subscriber lists, and watchers.  `watcher.teardown()` and cell
notification live in `src/core/observer/` which is not among the sources;
they are modelled from the spec (§3, §4.1). -/

/-- Modelled from the spec: a computation (watcher) as the destroy path
observes it — an `active` flag and a run counter ("no further reaction to
cell writes" is falsified by a run). -/
structure WatcherM where
  active : Bool
  runs : Nat
  deriving DecidableEq, Repr

/-- The destroy-relevant fields of one instance. -/
structure Inst where
  parent : Option Nat
  children : List Nat
  abstract : Bool
  isBeingDestroyed : Bool
  isDestroyed : Bool
  renderWatcher : Option Nat
  watchers : List Nat
  hasOb : Bool
  vmCount : Nat
  events : List (String × List Nat)
  vnode : Option Nat
  deriving DecidableEq, Repr

/-- World state: instance arena, cell subscriber lists, watcher states,
hook log, and the patch-call log `(vm, oldTree, newTreeIsNull)`. -/
structure DWorld where
  insts : List (Nat × Inst)
  cells : List (Nat × List Nat)
  watchers : List (Nat × WatcherM)
  hookLog : List (Nat × String)
  patchLog : List (Nat × Option Nat × Bool)
  deriving DecidableEq, Repr

/-- Update the instance record stored under key `i` in place. -/
def updInst (i : Nat) (f : Inst → Inst) (w : DWorld) : DWorld :=
  { w with insts := w.insts.map (fun p => if p.1 = i then (p.1, f p.2) else p) }

/-- `callHook(vm, hook)` as the destroy path observes it: the hook fires
(the slot discipline and per-handler dispatch are modelled separately for
C1). -/
def callHookD (i : Nat) (hk : String) (w : DWorld) : DWorld :=
  { w with hookLog := w.hookLog ++ [(i, hk)] }

/-- Modelled from the spec: `watcher.teardown()` — a computation is "torn
down when its owning component is destroyed (unsubscribes from all cells)"
(§3): when still active, drop the watcher from every cell's subscriber
list and clear the flag. -/
def teardownW (wid : Nat) (w : DWorld) : DWorld :=
  match w.watchers.lookup wid with
  | none => w
  | some wm =>
    if wm.active then
      { w with
        cells := w.cells.map (fun c => (c.1, c.2.filter (fun s => s ≠ wid)))
        watchers := w.watchers.map (fun p =>
          if p.1 = wid then (p.1, ⟨false, p.2.runs⟩) else p) }
    else w

/-- Modelled from the spec: a cell write — "writes invalidate it … every
subscribed computation is marked dirty and handed to the Scheduler"
(§3, §4.1); observable here as a run of each subscriber. -/
def writeCell (cid : Nat) (w : DWorld) : DWorld :=
  match w.cells.lookup cid with
  | none => w
  | some subs =>
    { w with watchers := w.watchers.map (fun p =>
        if p.1 ∈ subs then (p.1, ⟨p.2.active, p.2.runs + 1⟩) else p) }

/-- The `remove self from parent` step of `$destroy`:
`if (parent && !parent._isBeingDestroyed && !vm.$options.abstract)
remove(parent.$children, vm)` — `remove` (util) splices the first
occurrence, i.e. `List.erase`. -/
def detachFromParent (vmId : Nat) (inst : Inst) (w : DWorld) : DWorld :=
  match inst.parent with
  | none => w
  | some p =>
    match w.insts.lookup p with
    | none => w
    | some pinst =>
      if ¬pinst.isBeingDestroyed ∧ ¬inst.abstract then
        updInst p (fun j => { j with children := j.children.erase vmId }) w
      else w

/-- The body of `$destroy` past the re-entrancy guard, step for step in
source order: `beforeDestroy`; the `_isBeingDestroyed` flag; detach from
the parent's `$children`; teardown of `_watcher` and of every watcher in
`_watchers` (in the `while (i--)` reverse order); the
`_data.__ob__.vmCount` decrement; the `_isDestroyed` flag; the final
`__patch__(vm._vnode, null)`; `destroyed`; `$off()`.
(The `$el.__vue__` and `$vnode.parent` null-outs touch no claim and are
not modelled.) -/
def destroyCore (vmId : Nat) (inst : Inst) (w0 : DWorld) : DWorld :=
  let w1 := callHookD vmId "beforeDestroy" w0
  let w2 := updInst vmId (fun j => { j with isBeingDestroyed := true }) w1
  let w3 := detachFromParent vmId inst w2
  let w4 := match inst.renderWatcher with
    | some rwid => teardownW rwid w3
    | none => w3
  let w5 := (inst.watchers.reverse).foldl (fun acc wid => teardownW wid acc) w4
  let w6 := if inst.hasOb then
      updInst vmId (fun j => { j with vmCount := j.vmCount - 1 }) w5
    else w5
  let w7 := updInst vmId (fun j => { j with isDestroyed := true }) w6
  let w8 := { w7 with patchLog := w7.patchLog ++ [(vmId, inst.vnode, true)] }
  let w9 := callHookD vmId "destroyed" w8
  updInst vmId (fun j => { j with events := [] }) w9

/-- `Vue.prototype.$destroy`: no-op when the instance is unknown or
already mid-destruction, otherwise the destroy pipeline. -/
def destroyVm (vmId : Nat) (w0 : DWorld) : DWorld :=
  match w0.insts.lookup vmId with
  | none => w0
  | some inst =>
    if inst.isBeingDestroyed then w0
    else destroyCore vmId inst w0

/-! ### Assoc-list lookup lemmas for the destroy model (`Nat` keys) -/

theorem lookupN_cons_self {β : Type} (k : Nat) (v : β) (rest : List (Nat × β)) :
    List.lookup k ((k, v) :: rest) = some v := by simp [List.lookup]

theorem lookupN_cons_ne {β : Type} {k k' : Nat} (v : β) (rest : List (Nat × β))
    (h : k ≠ k') : List.lookup k ((k', v) :: rest) = List.lookup k rest := by
  simp [List.lookup, beq_eq_false_iff_ne.mpr h]

theorem lookup_map_updIf {β : Type} (i : Nat) (f : β → β) :
    ∀ (l : List (Nat × β)) (j : Nat),
      (l.map (fun p => if p.1 = i then (p.1, f p.2) else p)).lookup j
        = if j = i then (l.lookup j).map f else l.lookup j := by
  intro l
  induction l with
  | nil =>
    intro j
    by_cases hj : j = i <;> simp [hj, List.lookup]
  | cons p rest ih =>
    intro j
    obtain ⟨k, v⟩ := p
    by_cases hj : j = k
    · subst hj
      by_cases hk : j = i
      · simp only [List.map, if_pos hk, lookupN_cons_self]
        rfl
      · simp only [List.map, if_neg hk, lookupN_cons_self]
    · by_cases hk : k = i
      · simp only [List.map, if_pos hk]
        rw [lookupN_cons_ne _ _ hj, lookupN_cons_ne _ _ hj, ih]
      · simp only [List.map, if_neg hk]
        rw [lookupN_cons_ne _ _ hj, lookupN_cons_ne _ _ hj, ih]

theorem lookup_map_memIf {β : Type} (subs : List Nat) (g : β → β) :
    ∀ (l : List (Nat × β)) (j : Nat),
      (l.map (fun p => if p.1 ∈ subs then (p.1, g p.2) else p)).lookup j
        = if j ∈ subs then (l.lookup j).map g else l.lookup j := by
  intro l
  induction l with
  | nil =>
    intro j
    by_cases hj : j ∈ subs <;> simp [hj, List.lookup]
  | cons p rest ih =>
    intro j
    obtain ⟨k, v⟩ := p
    by_cases hj : j = k
    · subst hj
      by_cases hk : j ∈ subs
      · simp only [List.map, if_pos hk]
        rw [lookupN_cons_self, lookupN_cons_self]
        rfl
      · simp only [List.map, if_neg hk]
        rw [lookupN_cons_self, lookupN_cons_self]
    · by_cases hk : k ∈ subs
      · simp only [List.map, if_pos hk]
        rw [lookupN_cons_ne _ _ hj, lookupN_cons_ne _ _ hj, ih]
      · simp only [List.map, if_neg hk]
        rw [lookupN_cons_ne _ _ hj, lookupN_cons_ne _ _ hj, ih]

theorem lookup_map_val {β : Type} (g : β → β) :
    ∀ (l : List (Nat × β)) (j : Nat),
      (l.map (fun c => (c.1, g c.2))).lookup j = (l.lookup j).map g := by
  intro l
  induction l with
  | nil => intro j; simp [List.lookup]
  | cons p rest ih =>
    intro j
    obtain ⟨k, v⟩ := p
    by_cases hj : j = k
    · subst hj
      simp only [List.map]
      rw [lookupN_cons_self, lookupN_cons_self]
      rfl
    · simp only [List.map]
      rw [lookupN_cons_ne _ _ hj, lookupN_cons_ne _ _ hj, ih]

/-! ### Field-preservation and watcher-scrubbing lemmas -/

theorem teardownW_insts (wid : Nat) (w : DWorld) : (teardownW wid w).insts = w.insts := by
  unfold teardownW
  split
  · rfl
  · split <;> rfl

theorem teardownW_hookLog (wid : Nat) (w : DWorld) :
    (teardownW wid w).hookLog = w.hookLog := by
  unfold teardownW
  split
  · rfl
  · split <;> rfl

theorem teardownW_patchLog (wid : Nat) (w : DWorld) :
    (teardownW wid w).patchLog = w.patchLog := by
  unfold teardownW
  split
  · rfl
  · split <;> rfl

theorem foldTeardown_insts (L : List Nat) :
    ∀ w : DWorld, (L.foldl (fun acc wid => teardownW wid acc) w).insts = w.insts := by
  induction L with
  | nil => intro w; rfl
  | cons t rest ih =>
    intro w
    show (rest.foldl (fun acc wid => teardownW wid acc) (teardownW t w)).insts = w.insts
    rw [ih, teardownW_insts]

theorem foldTeardown_hookLog (L : List Nat) :
    ∀ w : DWorld, (L.foldl (fun acc wid => teardownW wid acc) w).hookLog = w.hookLog := by
  induction L with
  | nil => intro w; rfl
  | cons t rest ih =>
    intro w
    show (rest.foldl (fun acc wid => teardownW wid acc) (teardownW t w)).hookLog = w.hookLog
    rw [ih, teardownW_hookLog]

theorem foldTeardown_patchLog (L : List Nat) :
    ∀ w : DWorld, (L.foldl (fun acc wid => teardownW wid acc) w).patchLog = w.patchLog := by
  induction L with
  | nil => intro w; rfl
  | cons t rest ih =>
    intro w
    show (rest.foldl (fun acc wid => teardownW wid acc) (teardownW t w)).patchLog = w.patchLog
    rw [ih, teardownW_patchLog]

/-- A watcher no longer appears in any cell's subscriber list. -/
def scrubbed (w : DWorld) (wid : Nat) : Prop :=
  ∀ cid subs, w.cells.lookup cid = some subs → wid ∉ subs

theorem scrubbed_of_cells_eq {w w' : DWorld} {wid : Nat} (hc : w'.cells = w.cells)
    (h : scrubbed w wid) : scrubbed w' wid := by
  intro cid subs hlk
  rw [hc] at hlk
  exact h cid subs hlk

theorem teardownW_scrubs (wid : Nat) (w : DWorld) (wm : WatcherM)
    (hw : w.watchers.lookup wid = some wm) (ha : wm.active = true) :
    scrubbed (teardownW wid w) wid := by
  intro cid subs hlk
  unfold teardownW at hlk
  split at hlk
  · next hnone => rw [hw] at hnone; exact absurd hnone (by simp)
  · next wm' hsome =>
    rw [hw] at hsome
    injection hsome with hwm'
    subst hwm'
    rw [if_pos ha] at hlk
    rw [lookup_map_val (fun v => v.filter (fun s => s ≠ wid)) w.cells cid] at hlk
    cases horig : w.cells.lookup cid with
    | none => rw [horig] at hlk; simp at hlk
    | some orig =>
      rw [horig] at hlk
      injection hlk with hlk2
      intro hmem
      rw [← hlk2] at hmem
      have := List.of_mem_filter hmem
      simp at this

theorem teardownW_preserves_scrub (wid' wid : Nat) (w : DWorld)
    (h : scrubbed w wid) : scrubbed (teardownW wid' w) wid := by
  intro cid subs hlk
  unfold teardownW at hlk
  split at hlk
  · exact h cid subs hlk
  · next wm hsome =>
    split at hlk
    · rw [lookup_map_val (fun v => v.filter (fun s => s ≠ wid')) w.cells cid] at hlk
      cases horig : w.cells.lookup cid with
      | none => rw [horig] at hlk; simp at hlk
      | some orig =>
        rw [horig] at hlk
        injection hlk with hlk2
        intro hmem
        rw [← hlk2] at hmem
        exact h cid orig horig (List.mem_of_mem_filter hmem)
    · exact h cid subs hlk

theorem teardownW_lookup_other (wid' wid : Nat) (hne : wid ≠ wid') (w : DWorld) :
    (teardownW wid' w).watchers.lookup wid = w.watchers.lookup wid := by
  unfold teardownW
  split
  · rfl
  · next wm hsome =>
    split
    · rw [lookup_map_updIf wid' (fun v => (⟨false, v.runs⟩ : WatcherM)) w.watchers wid]
      rw [if_neg hne]
    · rfl

theorem foldTeardown_preserves_scrub (L : List Nat) :
    ∀ (w : DWorld) (wid : Nat), scrubbed w wid →
      scrubbed (L.foldl (fun acc x => teardownW x acc) w) wid := by
  induction L with
  | nil => intro w wid h; exact h
  | cons t rest ih =>
    intro w wid h
    exact ih (teardownW t w) wid (teardownW_preserves_scrub t wid w h)

theorem foldTeardown_scrubs (L : List Nat) :
    ∀ (w : DWorld) (wid : Nat), wid ∈ L →
      ((∃ wm, w.watchers.lookup wid = some wm ∧ wm.active = true) ∨ scrubbed w wid) →
      scrubbed (L.foldl (fun acc x => teardownW x acc) w) wid := by
  induction L with
  | nil => intro w wid h; simp at h
  | cons t rest ih =>
    intro w wid hmem hdisj
    show scrubbed (rest.foldl (fun acc x => teardownW x acc) (teardownW t w)) wid
    by_cases heq : wid = t
    · subst heq
      rcases hdisj with ⟨wm, hw, ha⟩ | hs
      · exact foldTeardown_preserves_scrub rest _ wid (teardownW_scrubs wid w wm hw ha)
      · exact foldTeardown_preserves_scrub rest _ wid (teardownW_preserves_scrub wid wid w hs)
    · have hmem' : wid ∈ rest := by
        rcases List.mem_cons.mp hmem with h | h
        · exact absurd h heq
        · exact h
      apply ih (teardownW t w) wid hmem'
      rcases hdisj with ⟨wm, hw, ha⟩ | hs
      · exact Or.inl ⟨wm, by rw [teardownW_lookup_other t wid heq]; exact hw, ha⟩
      · exact Or.inr (teardownW_preserves_scrub t wid w hs)

/-- The run counter of a watcher, as visible in the world. -/
def runsOf (w : DWorld) (wid : Nat) : Option Nat :=
  (w.watchers.lookup wid).map (fun m => m.runs)

/-- A scrubbed watcher does not react to any cell write. -/
theorem writeCell_no_retrigger (cid wid : Nat) (w : DWorld) (h : scrubbed w wid) :
    runsOf (writeCell cid w) wid = runsOf w wid := by
  unfold writeCell runsOf
  rcases hlk : w.cells.lookup cid with _ | subs
  · rfl
  · have hnot : wid ∉ subs := h cid subs hlk
    simp only
    rw [lookup_map_memIf subs (fun v => (⟨v.active, v.runs + 1⟩ : WatcherM)) w.watchers wid]
    rw [if_neg hnot]

theorem updInst_cells (i : Nat) (f : Inst → Inst) (w : DWorld) :
    (updInst i f w).cells = w.cells := rfl

theorem updInst_watchers (i : Nat) (f : Inst → Inst) (w : DWorld) :
    (updInst i f w).watchers = w.watchers := rfl

theorem updInst_hookLog (i : Nat) (f : Inst → Inst) (w : DWorld) :
    (updInst i f w).hookLog = w.hookLog := rfl

theorem updInst_patchLog (i : Nat) (f : Inst → Inst) (w : DWorld) :
    (updInst i f w).patchLog = w.patchLog := rfl

theorem callHookD_insts (i : Nat) (hk : String) (w : DWorld) :
    (callHookD i hk w).insts = w.insts := rfl

theorem callHookD_cells (i : Nat) (hk : String) (w : DWorld) :
    (callHookD i hk w).cells = w.cells := rfl

theorem callHookD_watchers (i : Nat) (hk : String) (w : DWorld) :
    (callHookD i hk w).watchers = w.watchers := rfl

theorem callHookD_patchLog (i : Nat) (hk : String) (w : DWorld) :
    (callHookD i hk w).patchLog = w.patchLog := rfl

theorem callHookD_hookLog (i : Nat) (hk : String) (w : DWorld) :
    (callHookD i hk w).hookLog = w.hookLog ++ [(i, hk)] := rfl

/-- When the parent exists, is not being destroyed, and the instance is
not abstract, the detach step is exactly the children-erase update. -/
theorem detachFromParent_eq (vmId : Nat) (inst : Inst) (w : DWorld) (p : Nat)
    (pinst : Inst) (hpar : inst.parent = some p)
    (hlkp : w.insts.lookup p = some pinst)
    (hpbd : pinst.isBeingDestroyed = false) (habs : inst.abstract = false) :
    detachFromParent vmId inst w =
      updInst p (fun j => { j with children := j.children.erase vmId }) w := by
  unfold detachFromParent
  rw [hpar]
  show (match w.insts.lookup p with
    | none => w
    | some pinst =>
      if ¬pinst.isBeingDestroyed ∧ ¬inst.abstract then
        updInst p (fun j => { j with children := j.children.erase vmId }) w
      else w) = _
  rw [hlkp]
  show (if ¬pinst.isBeingDestroyed ∧ ¬inst.abstract then
      updInst p (fun j => { j with children := j.children.erase vmId }) w
    else w) = _
  rw [if_pos ⟨by rw [hpbd]; simp, by rw [habs]; simp⟩]

theorem lookup_updInst (i : Nat) (f : Inst → Inst) (w : DWorld) (j : Nat) :
    (updInst i f w).insts.lookup j =
      if j = i then (w.insts.lookup j).map f else w.insts.lookup j := by
  show (w.insts.map _).lookup j = _
  exact lookup_map_updIf i f w.insts j

/-- Hooks fired by a full (non-re-entrant) destroy: exactly
`beforeDestroy` then `destroyed`, in that order. -/
theorem destroyCore_hookLog (vmId : Nat) (inst : Inst) (w : DWorld) (p : Nat)
    (pinst : Inst) (rwid : Nat) (hpar : inst.parent = some p)
    (hlkp : w.insts.lookup p = some pinst) (hne : p ≠ vmId)
    (hpbd : pinst.isBeingDestroyed = false) (habs : inst.abstract = false)
    (hrw : inst.renderWatcher = some rwid) :
    (destroyCore vmId inst w).hookLog =
      w.hookLog ++ [(vmId, "beforeDestroy"), (vmId, "destroyed")] := by
  have h2p : (updInst vmId (fun j => { j with isBeingDestroyed := true })
      (callHookD vmId "beforeDestroy" w)).insts.lookup p = some pinst := by
    rw [lookup_updInst, if_neg hne, callHookD_insts]
    exact hlkp
  simp only [destroyCore, hrw]
  rw [detachFromParent_eq vmId inst _ p pinst hpar h2p hpbd habs]
  by_cases hob : inst.hasOb = true
  · rw [if_pos hob]
    simp only [updInst_hookLog, callHookD_hookLog, teardownW_hookLog,
      foldTeardown_hookLog, List.append_assoc]
    rfl
  · rw [if_neg hob]
    simp only [updInst_hookLog, callHookD_hookLog, teardownW_hookLog,
      foldTeardown_hookLog, List.append_assoc]
    rfl

/-- The final patch call of destroy: old tree `vm._vnode`, new tree null. -/
theorem destroyCore_patchLog (vmId : Nat) (inst : Inst) (w : DWorld) (p : Nat)
    (pinst : Inst) (rwid : Nat) (hpar : inst.parent = some p)
    (hlkp : w.insts.lookup p = some pinst) (hne : p ≠ vmId)
    (hpbd : pinst.isBeingDestroyed = false) (habs : inst.abstract = false)
    (hrw : inst.renderWatcher = some rwid) :
    (destroyCore vmId inst w).patchLog = w.patchLog ++ [(vmId, inst.vnode, true)] := by
  have h2p : (updInst vmId (fun j => { j with isBeingDestroyed := true })
      (callHookD vmId "beforeDestroy" w)).insts.lookup p = some pinst := by
    rw [lookup_updInst, if_neg hne, callHookD_insts]
    exact hlkp
  simp only [destroyCore, hrw]
  rw [detachFromParent_eq vmId inst _ p pinst hpar h2p hpbd habs]
  by_cases hob : inst.hasOb = true
  · rw [if_pos hob]
    simp only [updInst_patchLog, callHookD_patchLog, teardownW_patchLog,
      foldTeardown_patchLog]
  · rw [if_neg hob]
    simp only [updInst_patchLog, callHookD_patchLog, teardownW_patchLog,
      foldTeardown_patchLog]

/-- After destroy, the parent's record holds its children list with the
destroyed instance erased (first occurrence removed); nothing else of the
parent changed. -/
theorem destroyCore_parent (vmId : Nat) (inst : Inst) (w : DWorld) (p : Nat)
    (pinst : Inst) (rwid : Nat) (hpar : inst.parent = some p)
    (hlkp : w.insts.lookup p = some pinst) (hne : p ≠ vmId)
    (hpbd : pinst.isBeingDestroyed = false) (habs : inst.abstract = false)
    (hrw : inst.renderWatcher = some rwid) :
    (destroyCore vmId inst w).insts.lookup p =
      some { pinst with children := pinst.children.erase vmId } := by
  have h2p : (updInst vmId (fun j => { j with isBeingDestroyed := true })
      (callHookD vmId "beforeDestroy" w)).insts.lookup p = some pinst := by
    rw [lookup_updInst, if_neg hne, callHookD_insts]
    exact hlkp
  simp only [destroyCore, hrw]
  rw [detachFromParent_eq vmId inst _ p pinst hpar h2p hpbd habs]
  by_cases hob : inst.hasOb = true
  · rw [if_pos hob]
    simp only [lookup_updInst, callHookD_insts, teardownW_insts, foldTeardown_insts,
      if_neg hne, eq_self_iff_true, if_true, h2p]
    rfl
  · rw [if_neg hob]
    simp only [lookup_updInst, callHookD_insts, teardownW_insts, foldTeardown_insts,
      if_neg hne, eq_self_iff_true, if_true, h2p]
    rfl

/-- After destroy, the instance's own record: flagged, destroyed, usage
counter decremented, and all event subscriptions cleared. -/
theorem destroyCore_self (vmId : Nat) (inst : Inst) (w : DWorld) (p : Nat)
    (pinst : Inst) (rwid : Nat) (hvm : w.insts.lookup vmId = some inst)
    (hpar : inst.parent = some p)
    (hlkp : w.insts.lookup p = some pinst) (hne : p ≠ vmId)
    (hpbd : pinst.isBeingDestroyed = false) (habs : inst.abstract = false)
    (hrw : inst.renderWatcher = some rwid) (hob : inst.hasOb = true) :
    (destroyCore vmId inst w).insts.lookup vmId =
      some
        { inst with
          isBeingDestroyed := true, isDestroyed := true,
          vmCount := inst.vmCount - 1, events := [] } := by
  have h2p : (updInst vmId (fun j => { j with isBeingDestroyed := true })
      (callHookD vmId "beforeDestroy" w)).insts.lookup p = some pinst := by
    rw [lookup_updInst, if_neg hne, callHookD_insts]
    exact hlkp
  have hne2 : vmId ≠ p := fun h => hne h.symm
  simp only [destroyCore, hrw]
  rw [detachFromParent_eq vmId inst _ p pinst hpar h2p hpbd habs]
  rw [if_pos hob]
  simp only [lookup_updInst, callHookD_insts, teardownW_insts, foldTeardown_insts,
    if_neg hne2, eq_self_iff_true, if_true, hvm]
  simp [hrw]

/-- Every watcher owned by the destroyed instance (its render watcher and
each member of `_watchers`) ends up scrubbed from every cell's subscriber
list. -/
theorem destroyCore_scrubbed (vmId : Nat) (inst : Inst) (w : DWorld) (p : Nat)
    (pinst : Inst) (rwid : Nat) (hpar : inst.parent = some p)
    (hlkp : w.insts.lookup p = some pinst) (hne : p ≠ vmId)
    (hpbd : pinst.isBeingDestroyed = false) (habs : inst.abstract = false)
    (hrw : inst.renderWatcher = some rwid)
    (hactive : ∀ wid, (wid = rwid ∨ wid ∈ inst.watchers) →
      ∃ wm, w.watchers.lookup wid = some wm ∧ wm.active = true) :
    ∀ wid, (wid = rwid ∨ wid ∈ inst.watchers) →
      scrubbed (destroyCore vmId inst w) wid := by
  intro wid hmem
  have h2p : (updInst vmId (fun j => { j with isBeingDestroyed := true })
      (callHookD vmId "beforeDestroy" w)).insts.lookup p = some pinst := by
    rw [lookup_updInst, if_neg hne, callHookD_insts]
    exact hlkp
  have hdet : detachFromParent vmId inst
      (updInst vmId (fun j => { j with isBeingDestroyed := true })
        (callHookD vmId "beforeDestroy" w)) =
      updInst p (fun j => { j with children := j.children.erase vmId })
        (updInst vmId (fun j => { j with isBeingDestroyed := true })
          (callHookD vmId "beforeDestroy" w)) :=
    detachFromParent_eq vmId inst _ p pinst hpar h2p hpbd habs
  have hW3watch : (updInst p (fun j => { j with children := j.children.erase vmId })
      (updInst vmId (fun j => { j with isBeingDestroyed := true })
        (callHookD vmId "beforeDestroy" w))).watchers = w.watchers := rfl
  have hscrub5 : scrubbed ((inst.watchers.reverse).foldl (fun acc x => teardownW x acc)
      (teardownW rwid (updInst p (fun j => { j with children := j.children.erase vmId })
        (updInst vmId (fun j => { j with isBeingDestroyed := true })
          (callHookD vmId "beforeDestroy" w))))) wid := by
    rcases hmem with rfl | hmemw
    · obtain ⟨wm, hw, ha⟩ := hactive wid (Or.inl rfl)
      have hw3 : (updInst p (fun j => { j with children := j.children.erase vmId })
          (updInst vmId (fun j => { j with isBeingDestroyed := true })
            (callHookD vmId "beforeDestroy" w))).watchers.lookup wid = some wm := by
        rw [hW3watch]
        exact hw
      exact foldTeardown_preserves_scrub _ _ _ (teardownW_scrubs wid _ wm hw3 ha)
    · apply foldTeardown_scrubs _ _ _ (List.mem_reverse.mpr hmemw)
      by_cases heq : wid = rwid
      · subst heq
        obtain ⟨wm, hw, ha⟩ := hactive wid (Or.inl rfl)
        have hw3 : (updInst p (fun j => { j with children := j.children.erase vmId })
            (updInst vmId (fun j => { j with isBeingDestroyed := true })
              (callHookD vmId "beforeDestroy" w))).watchers.lookup wid = some wm := by
          rw [hW3watch]
          exact hw
        exact Or.inr (teardownW_scrubs wid _ wm hw3 ha)
      · obtain ⟨wm, hw, ha⟩ := hactive wid (Or.inr hmemw)
        refine Or.inl ⟨wm, ?_, ha⟩
        rw [teardownW_lookup_other rwid wid heq, hW3watch]
        exact hw
  have hcells : (destroyCore vmId inst w).cells =
      ((inst.watchers.reverse).foldl (fun acc x => teardownW x acc)
        (teardownW rwid (updInst p (fun j => { j with children := j.children.erase vmId })
          (updInst vmId (fun j => { j with isBeingDestroyed := true })
            (callHookD vmId "beforeDestroy" w))))).cells := by
    simp only [destroyCore, hrw]
    rw [hdet]
    by_cases hob : inst.hasOb = true
    · rw [if_pos hob]
      simp only [updInst_cells, callHookD_cells]
    · rw [if_neg hob]
      simp only [updInst_cells, callHookD_cells]
  exact scrubbed_of_cells_eq hcells hscrub5

/-- C5: for a mounted non-abstract instance whose parent is not itself
being destroyed, `$destroy`
(1) fires `beforeDestroy` before `destroyed`;
(2) removes the instance from its parent's `$children` list;
(3) tears down the render watcher and every watcher in `_watchers`, so no
further cell write re-triggers any of them;
(4) invokes the patch collaborator one final time with a null new tree;
(5) clears all event subscriptions;
and a re-entrant `$destroy` on an instance flagged `_isBeingDestroyed`
changes nothing. -/
theorem destroy_lifecycle_contract :
    (∀ (w : DWorld) (vmId p rwid : Nat) (inst pinst : Inst),
      w.insts.lookup vmId = some inst →
      inst.isBeingDestroyed = false →
      inst.abstract = false →
      inst.parent = some p →
      w.insts.lookup p = some pinst →
      pinst.isBeingDestroyed = false →
      p ≠ vmId →
      inst.renderWatcher = some rwid →
      inst.hasOb = true →
      pinst.children.count vmId = 1 →
      (∀ wid, (wid = rwid ∨ wid ∈ inst.watchers) →
        ∃ wm, w.watchers.lookup wid = some wm ∧ wm.active = true) →
      ((destroyVm vmId w).hookLog
          = w.hookLog ++ [(vmId, "beforeDestroy"), (vmId, "destroyed")]) ∧
      ((destroyVm vmId w).insts.lookup p
          = some { pinst with children := pinst.children.erase vmId }) ∧
      vmId ∉ pinst.children.erase vmId ∧
      (∀ wid, (wid = rwid ∨ wid ∈ inst.watchers) → ∀ cid,
        runsOf (writeCell cid (destroyVm vmId w)) wid
          = runsOf (destroyVm vmId w) wid) ∧
      ((destroyVm vmId w).patchLog = w.patchLog ++ [(vmId, inst.vnode, true)]) ∧
      ((destroyVm vmId w).insts.lookup vmId
          = some
              { inst with
                isBeingDestroyed := true, isDestroyed := true,
                vmCount := inst.vmCount - 1, events := [] })) ∧
    (∀ (w : DWorld) (vmId : Nat) (inst : Inst),
      w.insts.lookup vmId = some inst →
      inst.isBeingDestroyed = true →
      destroyVm vmId w = w) := by
  constructor
  · intro w vmId p rwid inst pinst hvm hbd habs hpar hp hpbd hne hrw hob hcnt hactive
    have hD : destroyVm vmId w = destroyCore vmId inst w := by
      unfold destroyVm
      rw [hvm]
      show (if inst.isBeingDestroyed = true then w else destroyCore vmId inst w) = _
      rw [if_neg (by rw [hbd]; simp)]
    refine ⟨?_, ?_, ?_, ?_, ?_, ?_⟩
    · rw [hD]
      exact destroyCore_hookLog vmId inst w p pinst rwid hpar hp hne hpbd habs hrw
    · rw [hD]
      exact destroyCore_parent vmId inst w p pinst rwid hpar hp hne hpbd habs hrw
    · have h1 : (pinst.children.erase vmId).count vmId = 0 := by
        rw [List.count_erase_self, hcnt]
      exact List.count_eq_zero.mp h1
    · intro wid hmem cid
      rw [hD]
      exact writeCell_no_retrigger cid wid _
        (destroyCore_scrubbed vmId inst w p pinst rwid hpar hp hne hpbd habs hrw
          hactive wid hmem)
    · rw [hD]
      exact destroyCore_patchLog vmId inst w p pinst rwid hpar hp hne hpbd habs hrw
    · rw [hD]
      exact destroyCore_self vmId inst w p pinst rwid hvm hpar hp hne hpbd habs hrw hob
  · intro w vmId inst hvm hbd
    unfold destroyVm
    rw [hvm]
    show (if inst.isBeingDestroyed = true then w else destroyCore vmId inst w) = _
    rw [if_pos hbd]

/-- Concrete world for the C5 witness: instance 1 (child of 0, render
watcher 10, one extra watcher 11, one event subscription) inside a world
with one cell subscribed to by watchers 10, 11 and an unrelated 12. -/
def witChild : Inst :=
  ⟨some 0, [], false, false, false, some 10, [11], true, 1, [("e", [1])], some 5⟩

def witParent : Inst :=
  ⟨none, [1], false, false, false, none, [], true, 1, [], none⟩

def wit5World : DWorld :=
  ⟨[(1, witChild), (0, witParent)], [(100, [10, 11, 12])],
    [(10, ⟨true, 0⟩), (11, ⟨true, 0⟩), (12, ⟨true, 0⟩)], [], []⟩

theorem destroy_lifecycle_contract_witness :
    (destroyVm 1 wit5World).hookLog = [(1, "beforeDestroy"), (1, "destroyed")] ∧
    (destroyVm 1 wit5World).insts.lookup 0 = some { witParent with children := [] } ∧
    (∀ cid, runsOf (writeCell cid (destroyVm 1 wit5World)) 11
      = runsOf (destroyVm 1 wit5World) 11) :=
  have h := destroy_lifecycle_contract.1 wit5World 1 0 10 witChild witParent rfl rfl rfl
    rfl rfl rfl (by decide) rfl rfl (by decide)
    (by
      intro wid hmem
      rcases hmem with rfl | hmem
      · exact ⟨⟨true, 0⟩, rfl, rfl⟩
      · have : wid = 11 := by simpa [witChild] using hmem
        subst this
        exact ⟨⟨true, 0⟩, rfl, rfl⟩)
  ⟨h.1, h.2.1, fun cid => h.2.2.2.1 11 (Or.inr (by simp [witChild])) cid⟩

end VueCore
